import Mathlib

/-! Vial command handler (`quantum/vial.c`)

A shallow embedding of `vial_handle_cmd` and `vial_encoder_update`.

* Bytes and machine integers are natural numbers; every place where the C code
  truncates (a store into a `uint8_t`, a `uint16_t`/`uint32_t` variable, an
  argument of type `uint8_t`) carries an explicit `% 2^w`.
* The packet `msg` is a list of bytes.  Every read and write of `msg` (and of
  the definition blob) is bounds-checked: an access outside the object makes
  the embedding return `none`.
* The dynamic keymap (`dynamic_keymap.h`), the build-time constants and the
  layer state are not part of this file; they are parameters.
-/

namespace Vial

/-! ## Collaborators and build-time configuration -/

/-- Modelled from the spec: the packet size `RAW_EPSIZE` of
`protocol/usb_descriptor.h`, "fixed 32-byte request/response packets". -/
def RAW_EPSIZE : Nat := 32

/-- The accessors of `dynamic_keymap.h` used by `vial.c`, over an abstract
store state `σ`.  Reads are functions of the state, the write returns the new
state. -/
structure KeymapStore (σ : Type) where
  get_keycode : σ → Nat → Nat → Nat → Nat
  get_encoder : σ → Nat → Nat → Nat → Nat
  set_encoder : σ → Nat → Nat → Nat → Nat → σ

/-- Build-time constants of `vial.c`: protocol version, keyboard UID, the
generated definition blob, whether `VIAL_ENCODERS_ENABLE` is defined, the
number of layers and the transparent keycode. -/
structure Config where
  VIAL_PROTOCOL_VERSION : Nat
  VIAL_KEYBOARD_UID : List Nat
  keyboard_definition : List Nat
  VIAL_ENCODERS_ENABLE : Bool
  MAX_LAYER : Nat
  KC_TRNS : Nat

/-- Call of `uint16_t dynamic_keymap_get_keycode(uint8_t layer, uint8_t row,
uint8_t column)`: the arguments are converted to `uint8_t`, the result is a
`uint16_t`. -/
def dynamic_keymap_get_keycode {σ : Type} (K : KeymapStore σ) (st : σ)
    (layer row column : Nat) : Nat :=
  K.get_keycode st (layer % 256) (row % 256) (column % 256) % 65536

/-- Call of `uint16_t dynamic_keymap_get_encoder(uint8_t layer, uint8_t idx,
uint8_t dir)`. -/
def dynamic_keymap_get_encoder {σ : Type} (K : KeymapStore σ) (st : σ)
    (layer idx dir : Nat) : Nat :=
  K.get_encoder st (layer % 256) (idx % 256) (dir % 256) % 65536

/-- Call of `void dynamic_keymap_set_encoder(uint8_t layer, uint8_t idx,
uint8_t dir, uint16_t keycode)`. -/
def dynamic_keymap_set_encoder {σ : Type} (K : KeymapStore σ) (st : σ)
    (layer idx dir keycode : Nat) : σ :=
  K.set_encoder st (layer % 256) (idx % 256) (dir % 256) (keycode % 65536)

/-! ## Memory accesses -/

/-- Read of `msg[i]`; `none` outside the buffer. -/
def rd (msg : List Nat) (i : Nat) : Option Nat := msg[i]?

/-- Store `msg[i] = v` into a `uint8_t` cell; `none` outside the buffer. -/
def wr (msg : List Nat) (i : Nat) (v : Nat) : Option (List Nat) :=
  if i < msg.length then some (msg.set i (v % 256)) else none

/-- The call `memcpy(&dst[doff], &src[soff], n)`: `n` bytes are read from `src`
starting at `soff` and written to `dst` starting at `doff`; `none` if either
range leaves its object. -/
def memcpy (dst : List Nat) (doff : Nat) (src : List Nat) (soff : Nat) (n : Nat) :
    Option (List Nat) :=
  if doff + n ≤ dst.length ∧ soff + n ≤ src.length then
    some (dst.take doff ++ (src.drop soff).take n ++ dst.drop (doff + n))
  else none

/-! ## `vial_handle_cmd` -/

/-- Body of `case vial_get_keyboard_id`. -/
def handle_get_keyboard_id (cfg : Config) (msg : List Nat) : Option (List Nat) := do
  let keyboard_uid := cfg.VIAL_KEYBOARD_UID
  let msg ← wr msg 0 (cfg.VIAL_PROTOCOL_VERSION &&& 0xFF)
  let msg ← wr msg 1 ((cfg.VIAL_PROTOCOL_VERSION >>> 8) &&& 0xFF)
  let msg ← wr msg 2 ((cfg.VIAL_PROTOCOL_VERSION >>> 16) &&& 0xFF)
  let msg ← wr msg 3 ((cfg.VIAL_PROTOCOL_VERSION >>> 24) &&& 0xFF)
  memcpy msg 4 keyboard_uid 0 8

/-- Body of `case vial_get_size`; `sz` is a `uint32_t`. -/
def handle_get_size (cfg : Config) (msg : List Nat) : Option (List Nat) := do
  let sz := cfg.keyboard_definition.length % 2 ^ 32
  let msg ← wr msg 0 (sz &&& 0xFF)
  let msg ← wr msg 1 ((sz >>> 8) &&& 0xFF)
  let msg ← wr msg 2 ((sz >>> 16) &&& 0xFF)
  wr msg 3 ((sz >>> 24) &&& 0xFF)

/-- The `uint32_t page` of `case vial_get_def`: `msg[2] + (msg[3] << 8)`,
computed in `int` (taken to be at least 32 bits wide) and stored in a
`uint32_t`. -/
def def_page (b2 b3 : Nat) : Nat := (b2 + (b3 <<< 8)) % 2 ^ 32

/-- The `uint32_t start = page * RAW_EPSIZE`. -/
def def_start (page : Nat) : Nat := (page * RAW_EPSIZE) % 2 ^ 32

/-- The `uint32_t end = start + RAW_EPSIZE`. -/
def def_end (start : Nat) : Nat := (start + RAW_EPSIZE) % 2 ^ 32

/-- Body of `case vial_get_def`.  `sizeof(keyboard_definition)` is the length
of the blob; the comparisons with it are exact, the assignment to `end`
truncates to 32 bits, `end - start` is a 32-bit subtraction. -/
def handle_get_def (cfg : Config) (msg : List Nat) : Option (List Nat) := do
  let b2 ← rd msg 2
  let b3 ← rd msg 3
  let page := def_page b2 b3
  let start := def_start page
  let end_ := def_end start
  if end_ < start ∨ start ≥ cfg.keyboard_definition.length then
    some msg
  else
    let end_ := if end_ > cfg.keyboard_definition.length then
      cfg.keyboard_definition.length % 2 ^ 32 else end_
    memcpy msg 0 cfg.keyboard_definition start ((end_ + 2 ^ 32 - start) % 2 ^ 32)

/-- Body of `case vial_get_encoder`; `keycode` is a `uint16_t`. -/
def handle_get_encoder {σ : Type} (K : KeymapStore σ) (st : σ) (msg : List Nat) :
    Option (List Nat) := do
  let layer ← rd msg 2
  let idx ← rd msg 3
  let keycode := dynamic_keymap_get_encoder K st layer idx 0
  let msg ← wr msg 0 (keycode >>> 8)
  let msg ← wr msg 1 (keycode &&& 0xFF)
  let keycode := dynamic_keymap_get_encoder K st layer idx 1
  let msg ← wr msg 2 (keycode >>> 8)
  wr msg 3 (keycode &&& 0xFF)

/-- Body of `case vial_set_encoder`: the new store state. -/
def handle_set_encoder {σ : Type} (K : KeymapStore σ) (st : σ) (msg : List Nat) :
    Option σ := do
  let b2 ← rd msg 2
  let b3 ← rd msg 3
  let b4 ← rd msg 4
  let b5 ← rd msg 5
  let b6 ← rd msg 6
  some (dynamic_keymap_set_encoder K st b2 b3 b4 ((b5 <<< 8) ||| b6))

/-- One iteration of the loop of `case vial_get_keymap_fast`, for index `i`. -/
def keymap_fast_body {σ : Type} (K : KeymapStore σ) (st : σ) (layer row : Nat)
    (req : List Nat) (msg : List Nat) (i : Nat) : Option (List Nat) := do
  let r ← rd req i
  if r ≠ 0xFF then
    let keycode := dynamic_keymap_get_keycode K st layer row r
    let msg ← wr msg (2 * i) (keycode >>> 8)
    wr msg (2 * i + 1) (keycode &&& 0xFF)
  else
    some msg

/-- The loop `for (int i = ...; i < 16; ++i)` with `n` iterations left,
starting at index `i`. -/
def keymap_fast_loop {σ : Type} (K : KeymapStore σ) (st : σ) (layer row : Nat)
    (req : List Nat) : Nat → Nat → List Nat → Option (List Nat)
  | 0, _, msg => some msg
  | n + 1, i, msg => do
    let msg ← keymap_fast_body K st layer row req msg i
    keymap_fast_loop K st layer row req n (i + 1) msg

/-- Body of `case vial_get_keymap_fast`; `req` is the local 16-byte array. -/
def handle_get_keymap_fast {σ : Type} (K : KeymapStore σ) (st : σ) (msg : List Nat) :
    Option (List Nat) := do
  let layer ← rd msg 2
  let row ← rd msg 3
  let req ← memcpy (List.replicate 16 0) 0 msg 4 16
  keymap_fast_loop K st layer row req 16 0 msg

/-- The function `vial_handle_cmd(msg, length)`: the store state and the
buffer after the call. -/
def vial_handle_cmd {σ : Type} (K : KeymapStore σ) (cfg : Config) (st : σ)
    (msg : List Nat) (length : Nat) : Option (σ × List Nat) :=
  if length ≠ RAW_EPSIZE then some (st, msg)
  else do
    let op ← rd msg 1
    match op with
    | 0 => do
      let msg ← handle_get_keyboard_id cfg msg
      some (st, msg)
    | 1 => do
      let msg ← handle_get_size cfg msg
      some (st, msg)
    | 2 => do
      let msg ← handle_get_def cfg msg
      some (st, msg)
    | 3 =>
      if cfg.VIAL_ENCODERS_ENABLE then do
        let msg ← handle_get_encoder K st msg
        some (st, msg)
      else some (st, msg)
    | 4 =>
      if cfg.VIAL_ENCODERS_ENABLE then do
        let st ← handle_set_encoder K st msg
        some (st, msg)
      else some (st, msg)
    | 5 => do
      let msg ← handle_get_keymap_fast K st msg
      some (st, msg)
    | _ => some (st, msg)

/-! ## `vial_encoder_update` -/

/-- The loop `for (int8_t i = ...; i >= 0; i--)` of `vial_encoder_update` with
`n` layers left to check, that is for `i = n - 1` down to `0`.  The result is
`some code` when the loop calls `tap_code16(code)` and returns, `none` when the
loop runs to its end. -/
def encoder_scan {σ : Type} (K : KeymapStore σ) (cfg : Config) (st : σ)
    (layers index clockwise : Nat) : Nat → Option Nat
  | 0 => none
  | i + 1 =>
    if layers &&& (1 <<< i) ≠ 0 then
      let code := dynamic_keymap_get_encoder K st i index clockwise
      if code ≠ cfg.KC_TRNS then some code
      else encoder_scan K cfg st layers index clockwise i
    else encoder_scan K cfg st layers index clockwise i

/-- The function `vial_encoder_update(index, clockwise)` in the build with
`VIAL_ENCODERS_ENABLE`: the store state after the call and the keycodes passed
to `tap_code16`, in order.  `MAX_LAYER` is the width of `layer_state_t` (at
most 32), so `1UL << i` does not overflow. -/
def vial_encoder_update {σ : Type} (K : KeymapStore σ) (cfg : Config) (st : σ)
    (layer_state default_layer_state : Nat) (index : Nat) (clockwise : Bool) :
    σ × List Nat :=
  let dir := if clockwise then 1 else 0
  let layers := layer_state ||| default_layer_state
  match encoder_scan K cfg st layers index dir cfg.MAX_LAYER with
  | some code => (st, [code])
  | none => (st, [dynamic_keymap_get_encoder K st 0 index dir])

/-! ## Specification-side definitions -/

/-- A request or response packet: exactly 32 cells, each holding a byte. -/
def IsPacket (msg : List Nat) : Prop := msg.length = 32 ∧ ∀ b ∈ msg, b < 256

instance (msg : List Nat) : Decidable (IsPacket msg) := by
  unfold IsPacket; infer_instance

/-- The byte at offset `i` of a buffer (0 outside it). -/
def byteAt (msg : List Nat) (i : Nat) : Nat := msg.getD i 0

/-- The layers above the base layer, highest first: `n - 1, ..., 1`. -/
def upper_layers (n : Nat) : List Nat := (List.range' 1 (n - 1)).reverse

/-- The resolution algorithm in the words of the specification: among the
layers from the highest supported one down to 1, the first whose bit is set in
the combined mask and whose mapping for (layer, index, direction) is not the
transparent keycode gives the keycode; if there is none, the mapping of layer 0
is taken unconditionally. -/
def spec_encoder_resolve {σ : Type} (K : KeymapStore σ) (cfg : Config) (st : σ)
    (mask index dir : Nat) : Nat :=
  match (upper_layers cfg.MAX_LAYER).find? (fun layer =>
      mask.testBit layer && decide (dynamic_keymap_get_encoder K st layer index dir ≠ cfg.KC_TRNS)) with
  | some layer => dynamic_keymap_get_encoder K st layer index dir
  | none => dynamic_keymap_get_encoder K st 0 index dir

/-- A store whose `get_encoder` returns the value last written by
`set_encoder` for the same (layer, index, direction), for arguments in the
range of the C parameter types. -/
def ReadsBack {σ : Type} (K : KeymapStore σ) : Prop :=
  ∀ (s : σ) (layer idx dir keycode : Nat), layer < 256 → idx < 256 → dir < 256 →
    keycode < 65536 → K.get_encoder (K.set_encoder s layer idx dir keycode) layer idx dir = keycode

/-! ## Concrete inputs -/

/-- An example store: the keymap is a fixed table, the encoder mappings are an
association list with the latest write first (unmapped entries read 0). -/
def exampleStore : KeymapStore (List ((Nat × Nat × Nat) × Nat)) where
  get_keycode := fun _ layer row column => 4096 * layer + 256 * row + column + 1
  get_encoder := fun s layer idx dir => (s.lookup (layer, idx, dir)).getD 0
  set_encoder := fun s layer idx dir keycode => ((layer, idx, dir), keycode) :: s

/-- An example store state: encoder 0 of layer 0 is mapped to `0x0102`
(direction 0) and `0x0304` (direction 1). -/
def exampleEncoders : List ((Nat × Nat × Nat) × Nat) :=
  [((0, 0, 0), 0x0102), ((0, 0, 1), 0x0304)]

/-- An example configuration with a 40-byte definition blob
`200, 199, ..., 161`. -/
def exampleConfig : Config where
  VIAL_PROTOCOL_VERSION := 6
  VIAL_KEYBOARD_UID := [0x11, 0x22, 0x33, 0x44, 0x55, 0x66, 0x77, 0x88]
  keyboard_definition := (List.range 40).map (fun i => 200 - i)
  VIAL_ENCODERS_ENABLE := true
  MAX_LAYER := 32
  KC_TRNS := 1

/-- An example packet: magic byte, opcode, two argument bytes, then the 28
payload bytes `4, 5, ..., 31`. -/
def examplePacket (op b2 b3 : Nat) : List Nat :=
  [0xFE, op, b2, b3] ++ (List.range 28).map (fun i => i + 4)

/-- An example get-keymap-fast request for layer 1, row 2: slots 0 and 1 ask
for columns 0 and 1, slot 2 is the skip value `0xFF`, slot 3 asks for column 3,
the remaining slots are skipped. -/
def exampleKeymapRequest : List Nat :=
  [0xFE, 5, 1, 2, 0, 1, 0xFF, 3] ++ List.replicate 12 0xFF ++ List.replicate 12 0

/-- An example set-encoder request: layer 2, encoder 1, direction 1, keycode
`0x1234` sent high byte first. -/
def exampleSetEncoder : List Nat :=
  [0xFE, 4, 2, 1, 1, 0x12, 0x34] ++ List.replicate 25 0

/-- The configuration of the build in which `VIAL_ENCODERS_ENABLE` is defined
or not, all other constants being the same. -/
def with_encoders (cfg : Config) (enabled : Bool) : Config :=
  { cfg with VIAL_ENCODERS_ENABLE := enabled }

/-- The get-definition-page request for page `p`: opcode 2 and the page index
in two bytes, low byte first; the first byte and the 28 cells after the page
index are whatever the host left there. -/
def page_request (magic : Nat) (filler : List Nat) (p : Nat) : List Nat :=
  [magic, 2, p % 256, p / 256] ++ filler

/-- What a host reassembles from the blob of length `L`: for the pages
`0, ..., ceil(L / 32) - 1` in order, the first `min 32 (L - 32 * p)` bytes of
the response to the request for page `p`, concatenated. -/
def reassemble {σ : Type} (K : KeymapStore σ) (cfg : Config) (st : σ)
    (magic : Nat) (filler : List Nat) : List Nat :=
  (List.range ((cfg.keyboard_definition.length + 31) / 32)).flatMap (fun p =>
    match vial_handle_cmd K cfg st (page_request magic filler p) 32 with
    | some (_, out) => out.take (min 32 (cfg.keyboard_definition.length - 32 * p))
    | none => [])

/-! ## Auxiliary lemmas -/

/-- A read inside the buffer succeeds. -/
theorem rd_eq (msg : List Nat) (i : Nat) (h : i < msg.length) :
    rd msg i = some (byteAt msg i) := by
  simp [rd, byteAt, List.getD, h]

/-- A write inside the buffer succeeds and stores the low 8 bits. -/
theorem wr_eq (msg : List Nat) (i v : Nat) (h : i < msg.length) :
    wr msg i v = some (msg.set i (v % 256)) := by
  simp [wr, h]

/-- Every cell of a packet holds a byte. -/
theorem byteAt_lt_of_isPacket (msg : List Nat) (h : IsPacket msg) (i : Nat) :
    byteAt msg i < 256 := by
  by_cases hi : i < msg.length
  · have : byteAt msg i = msg[i] := by simp [byteAt, List.getD, hi]
    rw [this]; exact h.2 _ (List.getElem_mem _)
  · have : msg[i]? = none := List.getElem?_eq_none (by omega)
    simp [byteAt, List.getD, this]

/-- Shift left by 8 is multiplication by 256. -/
theorem shl8 (b : Nat) : b <<< 8 = 256 * b := by
  rw [Nat.shiftLeft_eq]; omega

/-- A `memcpy` whose two ranges are in bounds succeeds. -/
theorem memcpy_eq (dst : List Nat) (doff : Nat) (src : List Nat) (soff n : Nat)
    (hd : doff + n ≤ dst.length) (hs : soff + n ≤ src.length) :
    memcpy dst doff src soff n =
      some (dst.take doff ++ (src.drop soff).take n ++ dst.drop (doff + n)) := by
  simp [memcpy, hd, hs]

/-- Without wraparound, `start` is 32 times the page index. -/
theorem def_start_exact (b2 b3 : Nat) (h : 32 * (b2 + 256 * b3) + 32 < 2 ^ 32) :
    def_start (def_page b2 b3) = 32 * (b2 + 256 * b3) := by
  simp only [def_start, def_page, RAW_EPSIZE, shl8]
  omega

/-- Without wraparound, `end` is `start + 32`. -/
theorem def_end_exact (s : Nat) (h : s + 32 < 2 ^ 32) : def_end s = s + 32 := by
  simp only [def_end, RAW_EPSIZE]
  omega

/-- Dispatch of a 32-byte packet with opcode 2. -/
theorem vial_handle_cmd_get_def {σ : Type} (K : KeymapStore σ) (cfg : Config) (st : σ)
    (msg : List Nat) (hlen : msg.length = 32) (hop : byteAt msg 1 = 2) :
    vial_handle_cmd K cfg st msg 32 = (handle_get_def cfg msg).map (fun m => (st, m)) := by
  have h1 := rd_eq msg 1 (by omega)
  rw [hop] at h1
  simp only [vial_handle_cmd, RAW_EPSIZE, h1]
  cases handle_get_def cfg msg <;> rfl

/-- Unfolding of `handle_get_def` on a buffer of 32 cells. -/
theorem handle_get_def_eq (cfg : Config) (msg : List Nat) (hlen : msg.length = 32) :
    handle_get_def cfg msg =
      if def_end (def_start (def_page (byteAt msg 2) (byteAt msg 3)))
            < def_start (def_page (byteAt msg 2) (byteAt msg 3)) ∨
          def_start (def_page (byteAt msg 2) (byteAt msg 3)) ≥ cfg.keyboard_definition.length then
        some msg
      else
        memcpy msg 0 cfg.keyboard_definition (def_start (def_page (byteAt msg 2) (byteAt msg 3)))
          (((if def_end (def_start (def_page (byteAt msg 2) (byteAt msg 3)))
                > cfg.keyboard_definition.length then
              cfg.keyboard_definition.length % 2 ^ 32
            else def_end (def_start (def_page (byteAt msg 2) (byteAt msg 3)))) + 2 ^ 32
            - def_start (def_page (byteAt msg 2) (byteAt msg 3))) % 2 ^ 32) := by
  have h2 := rd_eq msg 2 (by omega)
  have h3 := rd_eq msg 3 (by omega)
  simp only [handle_get_def, h2, h3]
  rfl

/-- The accessor `byteAt` in terms of optional indexing. -/
theorem byteAt_eq_getElem? (l : List Nat) (j : Nat) : byteAt l j = (l[j]?).getD 0 := by
  simp [byteAt, List.getD]

/-- The buffer produced by a successful `memcpy`, cell by cell. -/
theorem byteAt_splice (dst : List Nat) (doff : Nat) (src : List Nat) (soff n : Nat)
    (hd : doff + n ≤ dst.length) (hs : soff + n ≤ src.length) (j : Nat) :
    byteAt (dst.take doff ++ (src.drop soff).take n ++ dst.drop (doff + n)) j =
      if doff ≤ j ∧ j < doff + n then byteAt src (soff + (j - doff)) else byteAt dst j := by
  simp only [byteAt_eq_getElem?]
  by_cases h1 : j < doff
  · rw [if_neg (by omega), List.append_assoc, List.getElem?_append_left (by simp; omega),
      List.getElem?_take_of_lt h1]
  · by_cases h2 : j < doff + n
    · rw [if_pos (by omega), List.getElem?_append_left (by simp; omega),
        List.getElem?_append_right (by simp; omega)]
      simp only [List.length_take]
      rw [List.getElem?_take_of_lt (by omega), List.getElem?_drop]
      congr 2
      omega
    · rw [if_neg (by omega), List.getElem?_append_right (by simp; omega)]
      simp only [List.length_append, List.length_take, List.length_drop]
      rw [List.getElem?_drop]
      congr 2
      omega

/-- A successful `memcpy` keeps the length of the destination. -/
theorem length_splice (dst : List Nat) (doff : Nat) (src : List Nat) (soff n : Nat)
    (hd : doff + n ≤ dst.length) (hs : soff + n ≤ src.length) :
    (dst.take doff ++ (src.drop soff).take n ++ dst.drop (doff + n)).length = dst.length := by
  simp only [List.length_append, List.length_take, List.length_drop]
  omega

/-- The page index of a packet fits in 16 bits. -/
theorem page_le_of_isPacket (msg : List Nat) (h : IsPacket msg) :
    byteAt msg 2 + 256 * byteAt msg 3 ≤ 65535 := by
  have h2 := byteAt_lt_of_isPacket msg h 2
  have h3 := byteAt_lt_of_isPacket msg h 3
  omega

/-- Masking with `0xFF` is the remainder modulo 256. -/
theorem and_255 (k : Nat) : k &&& 0xFF = k % 256 :=
  Nat.and_pow_two_sub_one_eq_mod k 8

/-- Shift right by 8 is division by 256. -/
theorem shr8 (k : Nat) : k >>> 8 = k / 256 :=
  Nat.shiftRight_eq_div_pow k 8

/-- Reading a buffer after one cell was overwritten. -/
theorem byteAt_set (l : List Nat) (i v j : Nat) :
    byteAt (l.set i v) j = if j = i ∧ i < l.length then v else byteAt l j := by
  simp only [byteAt_eq_getElem?, List.getElem?_set]
  by_cases h : i = j
  · subst h
    by_cases h2 : i < l.length
    · simp [h2]
    · simp [h2, List.getElem?_eq_none (Nat.le_of_not_lt h2)]
  · have : ¬ (j = i ∧ i < l.length) := fun hh => h hh.1.symm
    simp [h, this]

/-- One iteration of the keymap loop on a full-size buffer. -/
theorem keymap_fast_body_eq {σ : Type} (K : KeymapStore σ) (st : σ) (layer row : Nat)
    (req msg : List Nat) (i : Nat) (hreq : req.length = 16) (hmsg : msg.length = 32)
    (hi : i < 16) :
    keymap_fast_body K st layer row req msg i =
      some (if byteAt req i ≠ 0xFF then
        (msg.set (2 * i) ((dynamic_keymap_get_keycode K st layer row (byteAt req i) >>> 8) % 256)).set
          (2 * i + 1) ((dynamic_keymap_get_keycode K st layer row (byteAt req i) &&& 0xFF) % 256)
        else msg) := by
  have hr := rd_eq req i (by omega)
  simp only [keymap_fast_body, hr]
  by_cases h : byteAt req i = 0xFF
  · simp [h]
  · have hw1 := wr_eq msg (2 * i)
      (dynamic_keymap_get_keycode K st layer row (byteAt req i) >>> 8) (by omega)
    simp only [ne_eq, h, not_false_eq_true, if_true, Option.bind_eq_bind, Option.some_bind, hw1]
    rw [wr_eq _ _ _ (by simp; omega)]

/-- Invariant of the keymap loop: after the iterations `i, ..., i + n - 1` the
two cells of every resolved slot in that range hold its keycode and every other
cell is as before. -/
theorem keymap_fast_loop_spec {σ : Type} (K : KeymapStore σ) (st : σ) (layer row : Nat)
    (req : List Nat) (hreq : req.length = 16) :
    ∀ (n i : Nat) (msg : List Nat), msg.length = 32 → i + n ≤ 16 →
      ∃ out, keymap_fast_loop K st layer row req n i msg = some out ∧ out.length = 32 ∧
        ∀ j, byteAt out j =
          if i ≤ j / 2 ∧ j / 2 < i + n ∧ byteAt req (j / 2) ≠ 0xFF then
            (if j % 2 = 0 then
              (dynamic_keymap_get_keycode K st layer row (byteAt req (j / 2)) >>> 8) % 256
            else (dynamic_keymap_get_keycode K st layer row (byteAt req (j / 2)) &&& 0xFF) % 256)
          else byteAt msg j := by
  intro n
  induction n with
  | zero =>
    intro i msg hmsg _
    refine ⟨msg, rfl, hmsg, fun j => ?_⟩
    rw [if_neg (by omega)]
  | succ n ih =>
    intro i msg hmsg hin
    have hb := keymap_fast_body_eq K st layer row req msg i hreq hmsg (by omega)
    generalize hmsg1 : (if byteAt req i ≠ 0xFF then
        (msg.set (2 * i) ((dynamic_keymap_get_keycode K st layer row (byteAt req i) >>> 8) % 256)).set
          (2 * i + 1) ((dynamic_keymap_get_keycode K st layer row (byteAt req i) &&& 0xFF) % 256)
        else msg) = msg1 at hb
    have hlen1 : msg1.length = 32 := by
      rw [← hmsg1]; split <;> simp [hmsg]
    obtain ⟨out, hout, holen, hbytes⟩ := ih (i + 1) msg1 hlen1 (by omega)
    refine ⟨out, ?_, holen, fun j => ?_⟩
    · simp only [keymap_fast_loop, hb, Option.bind_eq_bind, Option.some_bind, hout]
    · rw [hbytes j, ← hmsg1]
      by_cases hj : j / 2 = i
      · subst hj
        rw [if_neg (by omega)]
        by_cases hff : byteAt req (j / 2) = 0xFF
        · rw [if_neg (by simp [hff]), if_neg (by simp [hff])]
        · have hc2 : j / 2 ≤ j / 2 ∧ j / 2 < j / 2 + (n + 1) ∧ byteAt req (j / 2) ≠ 0xFF :=
            ⟨by omega, by omega, hff⟩
          rw [if_pos hff, if_pos hc2, byteAt_set, byteAt_set]
          simp only [List.length_set, hmsg]
          by_cases hpar : j % 2 = 0
          · rw [if_neg (by omega), if_pos ⟨by omega, by omega⟩, if_pos hpar]
          · rw [if_pos ⟨by omega, by omega⟩, if_neg hpar]
      · have hne1 : ¬ (j = 2 * i + 1 ∧ 2 * i + 1 < 32) := by omega
        have hne0 : ¬ (j = 2 * i ∧ 2 * i < 32) := by omega
        have hmsg1j : byteAt (if byteAt req i ≠ 0xFF then
            (msg.set (2 * i) ((dynamic_keymap_get_keycode K st layer row (byteAt req i) >>> 8) % 256)).set
              (2 * i + 1) ((dynamic_keymap_get_keycode K st layer row (byteAt req i) &&& 0xFF) % 256)
            else msg) j = byteAt msg j := by
          split
          · rw [byteAt_set, byteAt_set]
            simp only [List.length_set, hmsg]
            rw [if_neg hne1, if_neg hne0]
          · rfl
        rw [hmsg1j]
        by_cases hc : i + 1 ≤ j / 2 ∧ j / 2 < i + 1 + n ∧ byteAt req (j / 2) ≠ 0xFF
        · have hc2 : i ≤ j / 2 ∧ j / 2 < i + (n + 1) ∧ byteAt req (j / 2) ≠ 0xFF :=
            ⟨by omega, by omega, hc.2.2⟩
          rw [if_pos hc, if_pos hc2]
        · have hc2 : ¬ (i ≤ j / 2 ∧ j / 2 < i + (n + 1) ∧ byteAt req (j / 2) ≠ 0xFF) :=
            fun h => hc ⟨by omega, by omega, h.2.2⟩
          rw [if_neg hc, if_neg hc2]

/-- Dispatch of a 32-byte packet with opcode 5. -/
theorem vial_handle_cmd_get_keymap_fast {σ : Type} (K : KeymapStore σ) (cfg : Config) (st : σ)
    (msg : List Nat) (hlen : msg.length = 32) (hop : byteAt msg 1 = 5) :
    vial_handle_cmd K cfg st msg 32 =
      (handle_get_keymap_fast K st msg).map (fun m => (st, m)) := by
  have h1 := rd_eq msg 1 (by omega)
  rw [hop] at h1
  simp only [vial_handle_cmd, RAW_EPSIZE, h1]
  cases handle_get_keymap_fast K st msg <;> rfl

/-- The whole response of get-keymap-fast, cell by cell: slot `j / 2` is
resolved from the inbound layer, row and column bytes, or left alone. -/
theorem handle_get_keymap_fast_spec {σ : Type} (K : KeymapStore σ) (st : σ)
    (msg : List Nat) (hlen : msg.length = 32) :
    ∃ out, handle_get_keymap_fast K st msg = some out ∧ out.length = 32 ∧
      ∀ j, j < 32 → byteAt out j =
        if byteAt msg (4 + j / 2) ≠ 0xFF then
          (if j % 2 = 0 then
            (dynamic_keymap_get_keycode K st (byteAt msg 2) (byteAt msg 3)
              (byteAt msg (4 + j / 2)) >>> 8) % 256
          else (dynamic_keymap_get_keycode K st (byteAt msg 2) (byteAt msg 3)
              (byteAt msg (4 + j / 2)) &&& 0xFF) % 256)
        else byteAt msg j := by
  have h2 := rd_eq msg 2 (by omega)
  have h3 := rd_eq msg 3 (by omega)
  have hd : 0 + 16 ≤ (List.replicate 16 0).length := by simp
  have hs : 4 + 16 ≤ msg.length := by omega
  have hm := memcpy_eq (List.replicate 16 0) 0 msg 4 16 hd hs
  have hreq := length_splice (List.replicate 16 0) 0 msg 4 16 hd hs
  have hreqb := byteAt_splice (List.replicate 16 0) 0 msg 4 16 hd hs
  generalize (List.replicate 16 0).take 0 ++ (msg.drop 4).take 16
    ++ (List.replicate 16 0).drop (0 + 16) = req at hm hreq hreqb
  rw [List.length_replicate] at hreq
  obtain ⟨out, hout, holen, hbytes⟩ :=
    keymap_fast_loop_spec K st (byteAt msg 2) (byteAt msg 3) req hreq 16 0 msg hlen (by omega)
  refine ⟨out, ?_, holen, fun j hj => ?_⟩
  · simp only [handle_get_keymap_fast, h2, h3, hm, Option.bind_eq_bind, Option.some_bind, hout]
  · have hr : byteAt req (j / 2) = byteAt msg (4 + j / 2) := by
      rw [hreqb, if_pos ⟨by omega, by omega⟩]
      rfl
    rw [hbytes j, hr]
    by_cases hff : byteAt msg (4 + j / 2) = 0xFF
    · have hc : ¬ (0 ≤ j / 2 ∧ j / 2 < 0 + 16 ∧ byteAt msg (4 + j / 2) ≠ 0xFF) :=
        fun h => h.2.2 hff
      have hc2 : ¬ (byteAt msg (4 + j / 2) ≠ 0xFF) := fun h => h hff
      rw [if_neg hc, if_neg hc2]
    · have hc : 0 ≤ j / 2 ∧ j / 2 < 0 + 16 ∧ byteAt msg (4 + j / 2) ≠ 0xFF :=
        ⟨by omega, by omega, hff⟩
      rw [if_pos hc, if_pos hff]

/-- The high byte stored for a 16-bit keycode. -/
theorem keycode_hi (k : Nat) (h : k < 65536) : (k >>> 8) % 256 = k / 256 := by
  rw [shr8]; omega

/-- The low byte stored for a keycode. -/
theorem keycode_lo (k : Nat) : (k &&& 0xFF) % 256 = k % 256 := by
  rw [and_255]; omega

/-- The keycode returned by `dynamic_keymap_get_keycode` is a `uint16_t`. -/
theorem dynamic_keymap_get_keycode_lt {σ : Type} (K : KeymapStore σ) (st : σ)
    (layer row column : Nat) : dynamic_keymap_get_keycode K st layer row column < 65536 := by
  unfold dynamic_keymap_get_keycode
  exact Nat.mod_lt _ (by decide)

/-- The keycode returned by `dynamic_keymap_get_encoder` is a `uint16_t`. -/
theorem dynamic_keymap_get_encoder_lt {σ : Type} (K : KeymapStore σ) (st : σ)
    (layer idx dir : Nat) : dynamic_keymap_get_encoder K st layer idx dir < 65536 := by
  unfold dynamic_keymap_get_encoder
  exact Nat.mod_lt _ (by decide)

/-- The upper layers of `n + 2` layers start with layer `n + 1`. -/
theorem upper_layers_succ (n : Nat) : upper_layers (n + 2) = (n + 1) :: upper_layers (n + 1) := by
  simp only [upper_layers, Nat.add_sub_cancel]
  rw [show n + 2 - 1 = n + 1 by omega, List.range'_concat, List.reverse_append]
  simp [Nat.add_comm]

/-- The bit test of the code, `layers & (1UL << i)`, is the test of bit `i`. -/
theorem and_bit_ne_zero_iff (m i : Nat) : m &&& (1 <<< i) ≠ 0 ↔ m.testBit i = true := by
  rw [Nat.one_shiftLeft]
  constructor
  · intro h
    by_contra hb
    apply h
    apply Nat.eq_of_testBit_eq
    intro j
    rw [Nat.testBit_and, Nat.testBit_two_pow, Nat.zero_testBit]
    by_cases hij : i = j
    · subst hij
      simp [hb]
    · simp [hij]
  · intro hb h
    have := congrArg (fun x => Nat.testBit x i) h
    simp [Nat.testBit_two_pow, hb] at this

/-- The scan of the layers `n, ..., 0` by the code, split into the layers above
the base and the base layer. -/
theorem encoder_scan_succ {σ : Type} (K : KeymapStore σ) (cfg : Config) (st : σ)
    (layers index dir : Nat) (n : Nat) :
    encoder_scan K cfg st layers index dir (n + 1) =
      match (upper_layers (n + 1)).find? (fun layer =>
        layers.testBit layer &&
          decide (dynamic_keymap_get_encoder K st layer index dir ≠ cfg.KC_TRNS)) with
      | some layer => some (dynamic_keymap_get_encoder K st layer index dir)
      | none =>
        if layers.testBit 0 = true ∧ dynamic_keymap_get_encoder K st 0 index dir ≠ cfg.KC_TRNS then
          some (dynamic_keymap_get_encoder K st 0 index dir)
        else none := by
  induction n with
  | zero =>
    simp only [encoder_scan, and_bit_ne_zero_iff, upper_layers]
    by_cases hb : layers.testBit 0 = true
    · by_cases hk : dynamic_keymap_get_encoder K st 0 index dir = cfg.KC_TRNS
      · simp [hb, hk]
      · simp [hb, hk]
    · simp [hb]
  | succ n ih =>
    rw [encoder_scan, ih, upper_layers_succ, List.find?_cons]
    simp only [and_bit_ne_zero_iff]
    by_cases hb : layers.testBit (n + 1) = true
    · by_cases hk : dynamic_keymap_get_encoder K st (n + 1) index dir = cfg.KC_TRNS
      · simp [hb, hk]
      · simp [hb, hk]
    · simp [hb]

/-- Dispatch of a 32-byte packet with opcode 3 in the build with encoders. -/
theorem vial_handle_cmd_get_encoder {σ : Type} (K : KeymapStore σ) (cfg : Config) (st : σ)
    (msg : List Nat) (hlen : msg.length = 32) (hop : byteAt msg 1 = 3)
    (hen : cfg.VIAL_ENCODERS_ENABLE = true) :
    vial_handle_cmd K cfg st msg 32 = (handle_get_encoder K st msg).map (fun m => (st, m)) := by
  have h1 := rd_eq msg 1 (by omega)
  rw [hop] at h1
  simp only [vial_handle_cmd, RAW_EPSIZE, h1, hen]
  cases handle_get_encoder K st msg <;> rfl

/-- The buffer written by `case vial_get_encoder`. -/
theorem handle_get_encoder_eq {σ : Type} (K : KeymapStore σ) (st : σ) (msg : List Nat)
    (hlen : msg.length = 32) :
    handle_get_encoder K st msg = some
      ((((msg.set 0 ((dynamic_keymap_get_encoder K st (byteAt msg 2) (byteAt msg 3) 0 >>> 8) % 256)).set
        1 ((dynamic_keymap_get_encoder K st (byteAt msg 2) (byteAt msg 3) 0 &&& 0xFF) % 256)).set
        2 ((dynamic_keymap_get_encoder K st (byteAt msg 2) (byteAt msg 3) 1 >>> 8) % 256)).set
        3 ((dynamic_keymap_get_encoder K st (byteAt msg 2) (byteAt msg 3) 1 &&& 0xFF) % 256)) := by
  have h2 := rd_eq msg 2 (by omega)
  have h3 := rd_eq msg 3 (by omega)
  simp only [handle_get_encoder, h2, h3, Option.bind_eq_bind, Option.some_bind]
  rw [wr_eq _ _ _ (by omega)]
  simp only [Option.some_bind]
  rw [wr_eq _ _ _ (by simp; omega)]
  simp only [Option.some_bind]
  rw [wr_eq _ _ _ (by simp; omega)]
  simp only [Option.some_bind]
  rw [wr_eq _ _ _ (by simp; omega)]

/-- The response of get-encoder, cell by cell. -/
theorem handle_get_encoder_spec {σ : Type} (K : KeymapStore σ) (st : σ) (msg : List Nat)
    (hlen : msg.length = 32) :
    ∃ out, handle_get_encoder K st msg = some out ∧ out.length = 32 ∧
      byteAt out 0 = dynamic_keymap_get_encoder K st (byteAt msg 2) (byteAt msg 3) 0 / 256 ∧
      byteAt out 1 = dynamic_keymap_get_encoder K st (byteAt msg 2) (byteAt msg 3) 0 % 256 ∧
      byteAt out 2 = dynamic_keymap_get_encoder K st (byteAt msg 2) (byteAt msg 3) 1 / 256 ∧
      byteAt out 3 = dynamic_keymap_get_encoder K st (byteAt msg 2) (byteAt msg 3) 1 % 256 ∧
      ∀ j, 4 ≤ j → j < 32 → byteAt out j = byteAt msg j := by
  refine ⟨_, handle_get_encoder_eq K st msg hlen, by simp [hlen], ?_, ?_, ?_, ?_, ?_⟩
  · simp [byteAt_set, hlen, keycode_hi _ (dynamic_keymap_get_encoder_lt K st _ _ _)]
  · simp [byteAt_set, hlen, keycode_lo]
  · simp [byteAt_set, hlen, keycode_hi _ (dynamic_keymap_get_encoder_lt K st _ _ _)]
  · simp [byteAt_set, hlen, keycode_lo]
  · intro j h4 h32
    simp only [byteAt_set]
    rw [if_neg (by omega), if_neg (by omega), if_neg (by omega), if_neg (by omega)]

/-- Dispatch of a 32-byte packet with opcode 4 in the build with encoders. -/
theorem vial_handle_cmd_set_encoder {σ : Type} (K : KeymapStore σ) (cfg : Config) (st : σ)
    (msg : List Nat) (hlen : msg.length = 32) (hop : byteAt msg 1 = 4)
    (hen : cfg.VIAL_ENCODERS_ENABLE = true) :
    vial_handle_cmd K cfg st msg 32 =
      some (dynamic_keymap_set_encoder K st (byteAt msg 2) (byteAt msg 3) (byteAt msg 4)
        ((byteAt msg 5 <<< 8) ||| byteAt msg 6), msg) := by
  have h1 := rd_eq msg 1 (by omega)
  rw [hop] at h1
  have h2 := rd_eq msg 2 (by omega)
  have h3 := rd_eq msg 3 (by omega)
  have h4 := rd_eq msg 4 (by omega)
  have h5 := rd_eq msg 5 (by omega)
  have h6 := rd_eq msg 6 (by omega)
  simp only [vial_handle_cmd, RAW_EPSIZE, h1, hen, handle_set_encoder, h2, h3, h4, h5, h6]
  rfl

/-- The expression `(hi << 8) | lo` for a byte `lo`. -/
theorem be16 (hi lo : Nat) (hlo : lo < 256) : (hi <<< 8) ||| lo = 256 * hi + lo := by
  have h := Nat.mul_add_lt_is_or (show lo < 2 ^ 8 from hlo) hi
  rw [shl8]
  exact h.symm

/-! ## The definition pager (`case vial_get_def`) -/

/-- Claim C1: for a blob of length `L < 2^32` and a 32-cell request with opcode
2 whose page index `p = byte2 + 256 * byte3` satisfies `32 * p + 32 ≤ L`, the
handler returns, with the store unchanged, a 32-byte buffer that is the blob
slice `[32 * p, 32 * p + 32)`: byte `j` of the response is blob byte
`32 * p + j`. -/
theorem get_def_full_page {σ : Type} (K : KeymapStore σ) (cfg : Config) (st : σ)
    (msg : List Nat) (hlen : msg.length = 32) (hop : byteAt msg 1 = 2)
    (hL : cfg.keyboard_definition.length < 2 ^ 32)
    (hpage : 32 * (byteAt msg 2 + 256 * byteAt msg 3) + 32 ≤ cfg.keyboard_definition.length) :
    ∃ out, vial_handle_cmd K cfg st msg 32 = some (st, out) ∧ out.length = 32 ∧
      out = (cfg.keyboard_definition.drop (32 * (byteAt msg 2 + 256 * byteAt msg 3))).take 32 ∧
      ∀ j, j < 32 → byteAt out j =
        byteAt cfg.keyboard_definition (32 * (byteAt msg 2 + 256 * byteAt msg 3) + j) := by
  have hd : 0 + 32 ≤ msg.length := by omega
  have hs : 32 * (byteAt msg 2 + 256 * byteAt msg 3) + 32 ≤ cfg.keyboard_definition.length :=
    hpage
  have hn : (32 * (byteAt msg 2 + 256 * byteAt msg 3) + 32 + 2 ^ 32
      - 32 * (byteAt msg 2 + 256 * byteAt msg 3)) % 2 ^ 32 = 32 := by omega
  refine ⟨msg.take 0 ++
    (cfg.keyboard_definition.drop (32 * (byteAt msg 2 + 256 * byteAt msg 3))).take 32
    ++ msg.drop (0 + 32), ?_, ?_, ?_, ?_⟩
  · rw [vial_handle_cmd_get_def K cfg st msg hlen hop, handle_get_def_eq cfg msg hlen,
      def_start_exact _ _ (by omega), def_end_exact _ (by omega),
      if_neg (by omega), if_neg (by omega), hn, memcpy_eq _ _ _ _ _ hd hs]
    rfl
  · rw [length_splice _ _ _ _ _ hd hs, hlen]
  · have hdrop : msg.drop (0 + 32) = [] := List.drop_eq_nil_of_le (by omega)
    rw [hdrop]
    simp
  · intro j hj
    rw [byteAt_splice _ _ _ _ _ hd hs, if_pos (by omega)]
    rfl

/-- Page 0 of the 40-byte example blob is served in full. -/
theorem get_def_full_page_witness :
    (examplePacket 2 0 0).length = 32 ∧ byteAt (examplePacket 2 0 0) 1 = 2 ∧
    exampleConfig.keyboard_definition.length < 2 ^ 32 ∧
    32 * (byteAt (examplePacket 2 0 0) 2 + 256 * byteAt (examplePacket 2 0 0) 3) + 32
      ≤ exampleConfig.keyboard_definition.length ∧
    ∃ out, vial_handle_cmd exampleStore exampleConfig [] (examplePacket 2 0 0) 32
        = some ([], out) ∧ out.length = 32 ∧
      out = (exampleConfig.keyboard_definition.drop
        (32 * (byteAt (examplePacket 2 0 0) 2 + 256 * byteAt (examplePacket 2 0 0) 3))).take 32 ∧
      ∀ j, j < 32 → byteAt out j = byteAt exampleConfig.keyboard_definition
        (32 * (byteAt (examplePacket 2 0 0) 2 + 256 * byteAt (examplePacket 2 0 0) 3) + j) :=
  ⟨by decide, by decide, by decide, by decide,
    get_def_full_page exampleStore exampleConfig [] (examplePacket 2 0 0)
      (by decide) (by decide) (by decide) (by decide)⟩

/-- Claim C2: for a 32-byte request with opcode 2 whose page index `p` gives
`32 * p < L ≤ 32 * p + 32` (the last, partial page), the response bytes
`[0, L - 32 * p)` are the blob bytes `[32 * p, L)` and every response byte at an
offset in `[L - 32 * p, 32)` is the inbound byte at that offset; the store is
unchanged. -/
theorem get_def_last_page {σ : Type} (K : KeymapStore σ) (cfg : Config) (st : σ)
    (msg : List Nat) (hpk : IsPacket msg) (hop : byteAt msg 1 = 2)
    (hlo : 32 * (byteAt msg 2 + 256 * byteAt msg 3) < cfg.keyboard_definition.length)
    (hhi : cfg.keyboard_definition.length ≤ 32 * (byteAt msg 2 + 256 * byteAt msg 3) + 32) :
    ∃ out, vial_handle_cmd K cfg st msg 32 = some (st, out) ∧ out.length = 32 ∧
      (∀ j, j < cfg.keyboard_definition.length - 32 * (byteAt msg 2 + 256 * byteAt msg 3) →
        byteAt out j =
          byteAt cfg.keyboard_definition (32 * (byteAt msg 2 + 256 * byteAt msg 3) + j)) ∧
      (∀ j, cfg.keyboard_definition.length - 32 * (byteAt msg 2 + 256 * byteAt msg 3) ≤ j →
        j < 32 → byteAt out j = byteAt msg j) := by
  have hlen := hpk.1
  have hp := page_le_of_isPacket msg hpk
  have hstart := def_start_exact (byteAt msg 2) (byteAt msg 3) (by omega)
  generalize byteAt msg 2 + 256 * byteAt msg 3 = p at *
  generalize hL : cfg.keyboard_definition.length = L at *
  have hn : ((if 32 * p + 32 > L then L % 2 ^ 32 else 32 * p + 32) + 2 ^ 32 - 32 * p) % 2 ^ 32
      = L - 32 * p := by
    split <;> omega
  have hd : 0 + (L - 32 * p) ≤ msg.length := by omega
  have hs : 32 * p + (L - 32 * p) ≤ cfg.keyboard_definition.length := by omega
  refine ⟨msg.take 0 ++ (cfg.keyboard_definition.drop (32 * p)).take (L - 32 * p)
    ++ msg.drop (0 + (L - 32 * p)), ?_, ?_, ?_, ?_⟩
  · rw [vial_handle_cmd_get_def K cfg st msg hlen hop, handle_get_def_eq cfg msg hlen, hstart,
      def_end_exact _ (by omega), hL, if_neg (by omega), hn, memcpy_eq _ _ _ _ _ hd hs]
    rfl
  · rw [length_splice _ _ _ _ _ hd hs, hlen]
  · intro j hj
    rw [byteAt_splice _ _ _ _ _ hd hs, if_pos (by omega)]
    rfl
  · intro j hj1 hj2
    rw [byteAt_splice _ _ _ _ _ hd hs, if_neg (by omega)]

/-- Page 1 of the 40-byte example blob is its last page: 8 blob bytes, then 24
inbound bytes. -/
theorem get_def_last_page_witness :
    IsPacket (examplePacket 2 1 0) ∧ byteAt (examplePacket 2 1 0) 1 = 2 ∧
    32 * (byteAt (examplePacket 2 1 0) 2 + 256 * byteAt (examplePacket 2 1 0) 3)
      < exampleConfig.keyboard_definition.length ∧
    exampleConfig.keyboard_definition.length
      ≤ 32 * (byteAt (examplePacket 2 1 0) 2 + 256 * byteAt (examplePacket 2 1 0) 3) + 32 ∧
    ∃ out, vial_handle_cmd exampleStore exampleConfig [] (examplePacket 2 1 0) 32
        = some ([], out) ∧ out.length = 32 ∧
      (∀ j, j < exampleConfig.keyboard_definition.length
          - 32 * (byteAt (examplePacket 2 1 0) 2 + 256 * byteAt (examplePacket 2 1 0) 3) →
        byteAt out j = byteAt exampleConfig.keyboard_definition
          (32 * (byteAt (examplePacket 2 1 0) 2 + 256 * byteAt (examplePacket 2 1 0) 3) + j)) ∧
      (∀ j, exampleConfig.keyboard_definition.length
          - 32 * (byteAt (examplePacket 2 1 0) 2 + 256 * byteAt (examplePacket 2 1 0) 3) ≤ j →
        j < 32 → byteAt out j = byteAt (examplePacket 2 1 0) j) :=
  ⟨by decide, by decide, by decide, by decide,
    get_def_last_page exampleStore exampleConfig [] (examplePacket 2 1 0)
      (by decide) (by decide) (by decide) (by decide)⟩

/-- Claim C3: for a 32-byte request with opcode 2 whose page index `p` gives
`32 * p ≥ L`, or whose 32-bit `end = start + 32` wrapped below `start`, the
handler returns the buffer identical to its input and the store unchanged. -/
theorem get_def_rejected {σ : Type} (K : KeymapStore σ) (cfg : Config) (st : σ)
    (msg : List Nat) (hpk : IsPacket msg) (hop : byteAt msg 1 = 2)
    (hrej : cfg.keyboard_definition.length ≤ 32 * (byteAt msg 2 + 256 * byteAt msg 3) ∨
      def_end (def_start (def_page (byteAt msg 2) (byteAt msg 3)))
        < def_start (def_page (byteAt msg 2) (byteAt msg 3))) :
    vial_handle_cmd K cfg st msg 32 = some (st, msg) := by
  have hlen := hpk.1
  have hp := page_le_of_isPacket msg hpk
  rw [vial_handle_cmd_get_def K cfg st msg hlen hop, handle_get_def_eq cfg msg hlen]
  have hguard : def_end (def_start (def_page (byteAt msg 2) (byteAt msg 3)))
        < def_start (def_page (byteAt msg 2) (byteAt msg 3)) ∨
      def_start (def_page (byteAt msg 2) (byteAt msg 3)) ≥ cfg.keyboard_definition.length := by
    rcases hrej with h | h
    · right
      rw [def_start_exact _ _ (by omega)]
      exact h
    · left
      exact h
  rw [if_pos hguard]
  rfl

/-- Page 2 of the 40-byte example blob starts at offset 64 and is rejected. -/
theorem get_def_rejected_witness :
    IsPacket (examplePacket 2 2 0) ∧ byteAt (examplePacket 2 2 0) 1 = 2 ∧
    (exampleConfig.keyboard_definition.length
        ≤ 32 * (byteAt (examplePacket 2 2 0) 2 + 256 * byteAt (examplePacket 2 2 0) 3) ∨
      def_end (def_start (def_page (byteAt (examplePacket 2 2 0) 2)
          (byteAt (examplePacket 2 2 0) 3)))
        < def_start (def_page (byteAt (examplePacket 2 2 0) 2)
          (byteAt (examplePacket 2 2 0) 3))) ∧
    vial_handle_cmd exampleStore exampleConfig [] (examplePacket 2 2 0) 32
      = some ([], examplePacket 2 2 0) :=
  ⟨by decide, by decide, by decide,
    get_def_rejected exampleStore exampleConfig [] (examplePacket 2 2 0)
      (by decide) (by decide) (by decide)⟩

/-! ## The fast keymap reader (`case vial_get_keymap_fast`) -/

/-- Claim C4: for a 32-cell request with opcode 5 and a slot `i < 16` whose
inbound column byte `byte[4 + i]` is not `0xFF`, the response bytes `2 * i` and
`2 * i + 1` are the high and the low byte of the keycode
`dynamic_keymap_get_keycode(layer, row, byte[4 + i])`, with `layer`, `row` and
the column taken from the inbound bytes 2, 3 and `4 + i`. -/
theorem get_keymap_fast_resolved {σ : Type} (K : KeymapStore σ) (cfg : Config) (st : σ)
    (msg : List Nat) (i : Nat) (hlen : msg.length = 32) (hop : byteAt msg 1 = 5)
    (hi : i < 16) (hv : byteAt msg (4 + i) ≠ 0xFF) :
    ∃ out, vial_handle_cmd K cfg st msg 32 = some (st, out) ∧ out.length = 32 ∧
      byteAt out (2 * i) =
        dynamic_keymap_get_keycode K st (byteAt msg 2) (byteAt msg 3) (byteAt msg (4 + i)) / 256 ∧
      byteAt out (2 * i + 1) =
        dynamic_keymap_get_keycode K st (byteAt msg 2) (byteAt msg 3) (byteAt msg (4 + i)) % 256 := by
  obtain ⟨out, hout, holen, hbytes⟩ := handle_get_keymap_fast_spec K st msg hlen
  refine ⟨out, ?_, holen, ?_, ?_⟩
  · rw [vial_handle_cmd_get_keymap_fast K cfg st msg hlen hop, hout]
    rfl
  · have h0 : 2 * i / 2 = i := by omega
    rw [hbytes (2 * i) (by omega), h0, if_pos hv, if_pos (by omega),
      keycode_hi _ (dynamic_keymap_get_keycode_lt K st _ _ _)]
  · have h1 : (2 * i + 1) / 2 = i := by omega
    rw [hbytes (2 * i + 1) (by omega), h1, if_pos hv, if_neg (by omega), keycode_lo]

/-- Slot 3 of the example request asks for column 3; its cells 6 and 7 are
written after cell 7 was read as the column byte. -/
theorem get_keymap_fast_resolved_witness :
    exampleKeymapRequest.length = 32 ∧ byteAt exampleKeymapRequest 1 = 5 ∧ 3 < 16 ∧
    byteAt exampleKeymapRequest (4 + 3) ≠ 0xFF ∧
    ∃ out, vial_handle_cmd exampleStore exampleConfig [] exampleKeymapRequest 32
        = some ([], out) ∧ out.length = 32 ∧
      byteAt out (2 * 3) =
        dynamic_keymap_get_keycode exampleStore [] (byteAt exampleKeymapRequest 2)
          (byteAt exampleKeymapRequest 3) (byteAt exampleKeymapRequest (4 + 3)) / 256 ∧
      byteAt out (2 * 3 + 1) =
        dynamic_keymap_get_keycode exampleStore [] (byteAt exampleKeymapRequest 2)
          (byteAt exampleKeymapRequest 3) (byteAt exampleKeymapRequest (4 + 3)) % 256 :=
  ⟨by decide, by decide, by decide, by decide,
    get_keymap_fast_resolved exampleStore exampleConfig [] exampleKeymapRequest 3
      (by decide) (by decide) (by decide) (by decide)⟩

/-- Claim C5: for a 32-cell request with opcode 5 and a slot `i < 16` whose
inbound column byte `byte[4 + i]` is `0xFF`, the response bytes `2 * i` and
`2 * i + 1` equal their inbound values, whatever the other slots contain. -/
theorem get_keymap_fast_skipped {σ : Type} (K : KeymapStore σ) (cfg : Config) (st : σ)
    (msg : List Nat) (i : Nat) (hlen : msg.length = 32) (hop : byteAt msg 1 = 5)
    (hi : i < 16) (hv : byteAt msg (4 + i) = 0xFF) :
    ∃ out, vial_handle_cmd K cfg st msg 32 = some (st, out) ∧ out.length = 32 ∧
      byteAt out (2 * i) = byteAt msg (2 * i) ∧
      byteAt out (2 * i + 1) = byteAt msg (2 * i + 1) := by
  obtain ⟨out, hout, holen, hbytes⟩ := handle_get_keymap_fast_spec K st msg hlen
  have hv2 : ¬ (byteAt msg (4 + i) ≠ 0xFF) := fun h => h hv
  refine ⟨out, ?_, holen, ?_, ?_⟩
  · rw [vial_handle_cmd_get_keymap_fast K cfg st msg hlen hop, hout]
    rfl
  · have h0 : 2 * i / 2 = i := by omega
    rw [hbytes (2 * i) (by omega), h0, if_neg hv2]
  · have h1 : (2 * i + 1) / 2 = i := by omega
    rw [hbytes (2 * i + 1) (by omega), h1, if_neg hv2]

/-- Slot 2 of the example request is skipped: cells 4 and 5 keep the column
bytes of slots 0 and 1, while the slots around it are resolved. -/
theorem get_keymap_fast_skipped_witness :
    exampleKeymapRequest.length = 32 ∧ byteAt exampleKeymapRequest 1 = 5 ∧ 2 < 16 ∧
    byteAt exampleKeymapRequest (4 + 2) = 0xFF ∧
    ∃ out, vial_handle_cmd exampleStore exampleConfig [] exampleKeymapRequest 32
        = some ([], out) ∧ out.length = 32 ∧
      byteAt out (2 * 2) = byteAt exampleKeymapRequest (2 * 2) ∧
      byteAt out (2 * 2 + 1) = byteAt exampleKeymapRequest (2 * 2 + 1) :=
  ⟨by decide, by decide, by decide, by decide,
    get_keymap_fast_skipped exampleStore exampleConfig [] exampleKeymapRequest 2
      (by decide) (by decide) (by decide) (by decide)⟩

/-! ## The encoder event resolver (`vial_encoder_update`) -/

/-- Claim C6: for every layer state, default layer state, encoder index,
direction and store, `vial_encoder_update` leaves the store as it is and passes
exactly one keycode to `tap_code16`, the one chosen by the algorithm of the
specification on the combined mask `layer_state | default_layer_state`. -/
theorem encoder_update_refines_spec {σ : Type} (K : KeymapStore σ) (cfg : Config) (st : σ)
    (layer_state default_layer_state index : Nat) (clockwise : Bool) :
    vial_encoder_update K cfg st layer_state default_layer_state index clockwise =
      (st, [spec_encoder_resolve K cfg st (layer_state ||| default_layer_state) index
        (if clockwise then 1 else 0)]) := by
  unfold vial_encoder_update spec_encoder_resolve
  cases hn : cfg.MAX_LAYER with
  | zero => simp [encoder_scan, upper_layers]
  | succ n =>
    simp only [encoder_scan_succ]
    split <;> rename_i h <;> split at h <;> simp_all

/-! ## The encoder accessors (`case vial_get_encoder`, `case vial_set_encoder`) -/

/-- The example store reads back what was written. -/
theorem exampleStore_readsBack : ReadsBack exampleStore := by
  intro s layer idx dir keycode _ _ _ _
  simp [exampleStore, List.lookup]

/-- Claim C7: on a store that reads back what was written, in the build with
encoders, handling a set-encoder packet (opcode 4, bytes 2..6 = layer, index,
direction `d`, `k >> 8`, `k & 0xFF`) for a direction `d` in {0, 1} and a 16-bit
keycode `k`, and then a get-encoder packet (opcode 3, bytes 2, 3 = layer,
index), gives a response whose bytes `2 * d` (high) and `2 * d + 1` (low)
decode to `k`. -/
theorem encoder_round_trip {σ : Type} (K : KeymapStore σ) (cfg : Config) (st : σ)
    (layer idx d k m1 m2 : Nat) (rest1 rest2 : List Nat)
    (hK : ReadsBack K) (hen : cfg.VIAL_ENCODERS_ENABLE = true)
    (hd : d = 0 ∨ d = 1) (hk : k < 65536)
    (hrest1 : rest1.length = 25) (hrest2 : rest2.length = 28) :
    ∃ st1 out,
      vial_handle_cmd K cfg st ([m1, 4, layer, idx, d, k >>> 8, k &&& 0xFF] ++ rest1) 32
        = some (st1, [m1, 4, layer, idx, d, k >>> 8, k &&& 0xFF] ++ rest1) ∧
      vial_handle_cmd K cfg st1 ([m2, 3, layer, idx] ++ rest2) 32 = some (st1, out) ∧
      out.length = 32 ∧
      256 * byteAt out (2 * d) + byteAt out (2 * d + 1) = k := by
  have hlen1 : ([m1, 4, layer, idx, d, k >>> 8, k &&& 0xFF] ++ rest1).length = 32 := by
    simp [hrest1]
  have hlen2 : ([m2, 3, layer, idx] ++ rest2).length = 32 := by simp [hrest2]
  have hset := vial_handle_cmd_set_encoder K cfg st _ hlen1 (by simp [byteAt]) hen
  have hkey : ((k >>> 8) <<< 8 ||| (k &&& 0xFF)) % 65536 = k := by
    rw [and_255, be16 _ _ (Nat.mod_lt _ (by decide)), shr8]
    omega
  have hst1 : dynamic_keymap_set_encoder K st layer idx d ((k >>> 8) <<< 8 ||| (k &&& 0xFF))
      = K.set_encoder st (layer % 256) (idx % 256) d k := by
    have hd256 : d % 256 = d := by omega
    simp only [dynamic_keymap_set_encoder, hkey, hd256]
  have e2 : byteAt ([m1, 4, layer, idx, d, k >>> 8, k &&& 0xFF] ++ rest1) 2 = layer := by
    simp [byteAt]
  have e3 : byteAt ([m1, 4, layer, idx, d, k >>> 8, k &&& 0xFF] ++ rest1) 3 = idx := by
    simp [byteAt]
  have e4 : byteAt ([m1, 4, layer, idx, d, k >>> 8, k &&& 0xFF] ++ rest1) 4 = d := by
    simp [byteAt]
  have e5 : byteAt ([m1, 4, layer, idx, d, k >>> 8, k &&& 0xFF] ++ rest1) 5 = k >>> 8 := by
    simp [byteAt]
  have e6 : byteAt ([m1, 4, layer, idx, d, k >>> 8, k &&& 0xFF] ++ rest1) 6 = k &&& 0xFF := by
    simp [byteAt]
  rw [e2, e3, e4, e5, e6, hst1] at hset
  obtain ⟨out, hout, holen, h0, h1, h2, h3, -⟩ :=
    handle_get_encoder_spec K (K.set_encoder st (layer % 256) (idx % 256) d k) _ hlen2
  have hg := vial_handle_cmd_get_encoder K cfg (K.set_encoder st (layer % 256) (idx % 256) d k)
    _ hlen2 (by simp [byteAt]) hen
  rw [hout] at hg
  have hb2 : byteAt ([m2, 3, layer, idx] ++ rest2) 2 = layer := by simp [byteAt]
  have hb3 : byteAt ([m2, 3, layer, idx] ++ rest2) 3 = idx := by simp [byteAt]
  rw [hb2, hb3] at h0 h1 h2 h3
  have hread : dynamic_keymap_get_encoder K (K.set_encoder st (layer % 256) (idx % 256) d k)
      layer idx d = k := by
    have hd256 : d % 256 = d := by omega
    simp only [dynamic_keymap_get_encoder, hd256]
    rw [hK st (layer % 256) (idx % 256) d k (Nat.mod_lt _ (by decide))
      (Nat.mod_lt _ (by decide)) (by omega) hk]
    omega
  refine ⟨K.set_encoder st (layer % 256) (idx % 256) d k, out, hset, hg, holen, ?_⟩
  rcases hd with hd | hd
  · subst hd
    rw [h0, h1, hread]
    omega
  · subst hd
    rw [h2, h3, hread]
    omega

/-- Writing keycode `0x1234` for layer 2, encoder 1, direction 1 on the example
store and reading it back. -/
theorem encoder_round_trip_witness :
    ReadsBack exampleStore ∧ exampleConfig.VIAL_ENCODERS_ENABLE = true ∧
    ((1 : Nat) = 0 ∨ (1 : Nat) = 1) ∧ 0x1234 < 65536 ∧
    (List.replicate 25 0).length = 25 ∧ (List.replicate 28 0).length = 28 ∧
    ∃ st1 out,
      vial_handle_cmd exampleStore exampleConfig exampleEncoders
          ([0xFE, 4, 2, 1, 1, 0x1234 >>> 8, 0x1234 &&& 0xFF] ++ List.replicate 25 0) 32
        = some (st1, [0xFE, 4, 2, 1, 1, 0x1234 >>> 8, 0x1234 &&& 0xFF] ++ List.replicate 25 0) ∧
      vial_handle_cmd exampleStore exampleConfig st1 ([0xFE, 3, 2, 1] ++ List.replicate 28 0) 32
        = some (st1, out) ∧
      out.length = 32 ∧
      256 * byteAt out (2 * 1) + byteAt out (2 * 1 + 1) = 0x1234 :=
  ⟨exampleStore_readsBack, by decide, by decide, by decide, by decide, by decide,
    encoder_round_trip exampleStore exampleConfig exampleEncoders 2 1 1 0x1234 0xFE 0xFE
      (List.replicate 25 0) (List.replicate 28 0) exampleStore_readsBack
      (by decide) (by decide) (by decide) (by decide) (by decide)⟩

/-- Claim C8: for a 32-cell request with opcode 3 in the build with encoders,
with `layer` and `idx` the inbound bytes 2 and 3, the response bytes 0, 1 are
the high and low byte of `dynamic_keymap_get_encoder(layer, idx, 0)`, the bytes
2, 3 are the high and low byte of `dynamic_keymap_get_encoder(layer, idx, 1)`,
and the bytes 4..31 equal their inbound values; the store is unchanged. -/
theorem get_encoder_response {σ : Type} (K : KeymapStore σ) (cfg : Config) (st : σ)
    (msg : List Nat) (hlen : msg.length = 32) (hop : byteAt msg 1 = 3)
    (hen : cfg.VIAL_ENCODERS_ENABLE = true) :
    ∃ out, vial_handle_cmd K cfg st msg 32 = some (st, out) ∧ out.length = 32 ∧
      byteAt out 0 = dynamic_keymap_get_encoder K st (byteAt msg 2) (byteAt msg 3) 0 / 256 ∧
      byteAt out 1 = dynamic_keymap_get_encoder K st (byteAt msg 2) (byteAt msg 3) 0 % 256 ∧
      byteAt out 2 = dynamic_keymap_get_encoder K st (byteAt msg 2) (byteAt msg 3) 1 / 256 ∧
      byteAt out 3 = dynamic_keymap_get_encoder K st (byteAt msg 2) (byteAt msg 3) 1 % 256 ∧
      ∀ j, 4 ≤ j → j < 32 → byteAt out j = byteAt msg j := by
  obtain ⟨out, hout, hrest⟩ := handle_get_encoder_spec K st msg hlen
  refine ⟨out, ?_, hrest⟩
  rw [vial_handle_cmd_get_encoder K cfg st msg hlen hop hen, hout]
  rfl

/-- Reading encoder 0 of layer 0 from the example store state. -/
theorem get_encoder_response_witness :
    (examplePacket 3 0 0).length = 32 ∧ byteAt (examplePacket 3 0 0) 1 = 3 ∧
    exampleConfig.VIAL_ENCODERS_ENABLE = true ∧
    ∃ out, vial_handle_cmd exampleStore exampleConfig exampleEncoders (examplePacket 3 0 0) 32
        = some (exampleEncoders, out) ∧ out.length = 32 ∧
      byteAt out 0 = dynamic_keymap_get_encoder exampleStore exampleEncoders
        (byteAt (examplePacket 3 0 0) 2) (byteAt (examplePacket 3 0 0) 3) 0 / 256 ∧
      byteAt out 1 = dynamic_keymap_get_encoder exampleStore exampleEncoders
        (byteAt (examplePacket 3 0 0) 2) (byteAt (examplePacket 3 0 0) 3) 0 % 256 ∧
      byteAt out 2 = dynamic_keymap_get_encoder exampleStore exampleEncoders
        (byteAt (examplePacket 3 0 0) 2) (byteAt (examplePacket 3 0 0) 3) 1 / 256 ∧
      byteAt out 3 = dynamic_keymap_get_encoder exampleStore exampleEncoders
        (byteAt (examplePacket 3 0 0) 2) (byteAt (examplePacket 3 0 0) 3) 1 % 256 ∧
      ∀ j, 4 ≤ j → j < 32 → byteAt out j = byteAt (examplePacket 3 0 0) j :=
  ⟨by decide, by decide, by decide,
    get_encoder_response exampleStore exampleConfig exampleEncoders (examplePacket 3 0 0)
      (by decide) (by decide) (by decide)⟩

/-- Claim C9, as stated, fails: with encoder 0 of layer 0 mapped to `0x0102`,
the get-encoder response starts with the bytes 1, 2, whose little-endian
reading `1 + 256 * 2` is not `0x0102`. -/
theorem get_encoder_little_endian_counterexample :
    vial_handle_cmd exampleStore exampleConfig exampleEncoders (examplePacket 3 0 0) 32
      = some (exampleEncoders, [1, 2, 3, 4] ++ (examplePacket 3 0 0).drop 4) ∧
    dynamic_keymap_get_encoder exampleStore exampleEncoders
      (byteAt (examplePacket 3 0 0) 2) (byteAt (examplePacket 3 0 0) 3) 0 = 0x0102 ∧
    byteAt ([1, 2, 3, 4] ++ (examplePacket 3 0 0).drop 4) 0
      + 256 * byteAt ([1, 2, 3, 4] ++ (examplePacket 3 0 0).drop 4) 1 ≠ 0x0102 := by
  decide

/-- Claim C9, amended: for a 32-cell request with opcode 3 in the build with
encoders, each 16-bit keycode of the response is encoded big-endian:
`256 * byte0 + byte1` is `dynamic_keymap_get_encoder(layer, idx, 0)` and
`256 * byte2 + byte3` is `dynamic_keymap_get_encoder(layer, idx, 1)`. -/
theorem get_encoder_big_endian {σ : Type} (K : KeymapStore σ) (cfg : Config) (st : σ)
    (msg : List Nat) (hlen : msg.length = 32) (hop : byteAt msg 1 = 3)
    (hen : cfg.VIAL_ENCODERS_ENABLE = true) :
    ∃ out, vial_handle_cmd K cfg st msg 32 = some (st, out) ∧ out.length = 32 ∧
      256 * byteAt out 0 + byteAt out 1 =
        dynamic_keymap_get_encoder K st (byteAt msg 2) (byteAt msg 3) 0 ∧
      256 * byteAt out 2 + byteAt out 3 =
        dynamic_keymap_get_encoder K st (byteAt msg 2) (byteAt msg 3) 1 := by
  obtain ⟨out, hout, holen, h0, h1, h2, h3, -⟩ := handle_get_encoder_spec K st msg hlen
  refine ⟨out, ?_, holen, ?_, ?_⟩
  · rw [vial_handle_cmd_get_encoder K cfg st msg hlen hop hen, hout]
    rfl
  · rw [h0, h1]; omega
  · rw [h2, h3]; omega

/-- The big-endian reading of the example get-encoder response. -/
theorem get_encoder_big_endian_witness :
    (examplePacket 3 0 0).length = 32 ∧ byteAt (examplePacket 3 0 0) 1 = 3 ∧
    exampleConfig.VIAL_ENCODERS_ENABLE = true ∧
    ∃ out, vial_handle_cmd exampleStore exampleConfig exampleEncoders (examplePacket 3 0 0) 32
        = some (exampleEncoders, out) ∧ out.length = 32 ∧
      256 * byteAt out 0 + byteAt out 1 = dynamic_keymap_get_encoder exampleStore exampleEncoders
        (byteAt (examplePacket 3 0 0) 2) (byteAt (examplePacket 3 0 0) 3) 0 ∧
      256 * byteAt out 2 + byteAt out 3 = dynamic_keymap_get_encoder exampleStore exampleEncoders
        (byteAt (examplePacket 3 0 0) 2) (byteAt (examplePacket 3 0 0) 3) 1 :=
  ⟨by decide, by decide, by decide,
    get_encoder_big_endian exampleStore exampleConfig exampleEncoders (examplePacket 3 0 0)
      (by decide) (by decide) (by decide)⟩

/-- Claim C10: for a 32-byte request with opcode 4 in the build with encoders,
the store after the call is the store before it with the single write
`set_encoder(byte2, byte3, byte4, 256 * byte5 + byte6)`, and the buffer is
returned identical to its input. -/
theorem set_encoder_writes_store {σ : Type} (K : KeymapStore σ) (cfg : Config) (st : σ)
    (msg : List Nat) (hpk : IsPacket msg) (hop : byteAt msg 1 = 4)
    (hen : cfg.VIAL_ENCODERS_ENABLE = true) :
    vial_handle_cmd K cfg st msg 32 =
      some (K.set_encoder st (byteAt msg 2) (byteAt msg 3) (byteAt msg 4)
        (256 * byteAt msg 5 + byteAt msg 6), msg) := by
  have h2 := byteAt_lt_of_isPacket msg hpk 2
  have h3 := byteAt_lt_of_isPacket msg hpk 3
  have h4 := byteAt_lt_of_isPacket msg hpk 4
  have h5 := byteAt_lt_of_isPacket msg hpk 5
  have h6 := byteAt_lt_of_isPacket msg hpk 6
  rw [vial_handle_cmd_set_encoder K cfg st msg hpk.1 hop hen, be16 _ _ h6]
  simp only [dynamic_keymap_set_encoder]
  rw [Nat.mod_eq_of_lt h2, Nat.mod_eq_of_lt h3, Nat.mod_eq_of_lt h4,
    Nat.mod_eq_of_lt (by omega : 256 * byteAt msg 5 + byteAt msg 6 < 65536)]

/-- The example set-encoder request writes keycode `0x1234` once. -/
theorem set_encoder_writes_store_witness :
    IsPacket exampleSetEncoder ∧ byteAt exampleSetEncoder 1 = 4 ∧
    exampleConfig.VIAL_ENCODERS_ENABLE = true ∧
    vial_handle_cmd exampleStore exampleConfig exampleEncoders exampleSetEncoder 32 =
      some (exampleStore.set_encoder exampleEncoders (byteAt exampleSetEncoder 2)
        (byteAt exampleSetEncoder 3) (byteAt exampleSetEncoder 4)
        (256 * byteAt exampleSetEncoder 5 + byteAt exampleSetEncoder 6), exampleSetEncoder) :=
  ⟨by decide, by decide, by decide,
    set_encoder_writes_store exampleStore exampleConfig exampleEncoders exampleSetEncoder
      (by decide) (by decide) (by decide)⟩

/-! ## Dispatch and the handlers that only write -/

/-- The dispatch of a 32-cell buffer: the guard passes and the opcode is the
byte at offset 1. -/
theorem vial_handle_cmd_eq {σ : Type} (K : KeymapStore σ) (cfg : Config) (st : σ)
    (msg : List Nat) (hlen : msg.length = 32) :
    vial_handle_cmd K cfg st msg 32 =
      match byteAt msg 1 with
      | 0 => (handle_get_keyboard_id cfg msg).map (fun m => (st, m))
      | 1 => (handle_get_size cfg msg).map (fun m => (st, m))
      | 2 => (handle_get_def cfg msg).map (fun m => (st, m))
      | 3 =>
        if cfg.VIAL_ENCODERS_ENABLE then (handle_get_encoder K st msg).map (fun m => (st, m))
        else some (st, msg)
      | 4 =>
        if cfg.VIAL_ENCODERS_ENABLE then (handle_set_encoder K st msg).map (fun s => (s, msg))
        else some (st, msg)
      | 5 => (handle_get_keymap_fast K st msg).map (fun m => (st, m))
      | _ => some (st, msg) := by
  have h1 := rd_eq msg 1 (by omega)
  simp only [vial_handle_cmd, RAW_EPSIZE, h1]
  generalize byteAt msg 1 = op
  match op with
  | 0 => cases handle_get_keyboard_id cfg msg <;> rfl
  | 1 => cases handle_get_size cfg msg <;> rfl
  | 2 => cases handle_get_def cfg msg <;> rfl
  | 3 => cases cfg.VIAL_ENCODERS_ENABLE <;> cases handle_get_encoder K st msg <;> rfl
  | 4 => cases cfg.VIAL_ENCODERS_ENABLE <;> cases handle_set_encoder K st msg <;> rfl
  | 5 => cases handle_get_keymap_fast K st msg <;> rfl
  | _ + 6 => rfl

/-- A byte of a 32-bit value, as computed by `(v >> s) & 0xFF` and stored. -/
theorem byte_of_shift (v s : Nat) : ((v >>> s) &&& 0xFF) % 256 = v / 2 ^ s % 256 := by
  rw [and_255, Nat.shiftRight_eq_div_pow]
  omega

/-- The buffer written by `case vial_get_size`. -/
theorem handle_get_size_eq (cfg : Config) (msg : List Nat) (hlen : msg.length = 32) :
    handle_get_size cfg msg = some
      ((((msg.set 0 (cfg.keyboard_definition.length % 2 ^ 32 % 256)).set
        1 (cfg.keyboard_definition.length % 2 ^ 32 / 2 ^ 8 % 256)).set
        2 (cfg.keyboard_definition.length % 2 ^ 32 / 2 ^ 16 % 256)).set
        3 (cfg.keyboard_definition.length % 2 ^ 32 / 2 ^ 24 % 256)) := by
  simp only [handle_get_size, Option.bind_eq_bind]
  rw [wr_eq _ _ _ (by omega)]
  simp only [Option.some_bind]
  rw [wr_eq _ _ _ (by simp; omega)]
  simp only [Option.some_bind]
  rw [wr_eq _ _ _ (by simp; omega)]
  simp only [Option.some_bind]
  rw [wr_eq _ _ _ (by simp; omega), keycode_lo, byte_of_shift, byte_of_shift, byte_of_shift]

/-- The buffer written by `case vial_get_keyboard_id`. -/
theorem handle_get_keyboard_id_eq (cfg : Config) (msg : List Nat) (hlen : msg.length = 32)
    (huid : 8 ≤ cfg.VIAL_KEYBOARD_UID.length) :
    handle_get_keyboard_id cfg msg = some
      (((((msg.set 0 (cfg.VIAL_PROTOCOL_VERSION % 256)).set
        1 (cfg.VIAL_PROTOCOL_VERSION / 2 ^ 8 % 256)).set
        2 (cfg.VIAL_PROTOCOL_VERSION / 2 ^ 16 % 256)).set
        3 (cfg.VIAL_PROTOCOL_VERSION / 2 ^ 24 % 256)).take 4
        ++ (cfg.VIAL_KEYBOARD_UID.drop 0).take 8
        ++ ((((msg.set 0 (cfg.VIAL_PROTOCOL_VERSION % 256)).set
        1 (cfg.VIAL_PROTOCOL_VERSION / 2 ^ 8 % 256)).set
        2 (cfg.VIAL_PROTOCOL_VERSION / 2 ^ 16 % 256)).set
        3 (cfg.VIAL_PROTOCOL_VERSION / 2 ^ 24 % 256)).drop (4 + 8)) := by
  simp only [handle_get_keyboard_id, Option.bind_eq_bind]
  rw [wr_eq _ _ _ (by omega)]
  simp only [Option.some_bind]
  rw [wr_eq _ _ _ (by simp; omega)]
  simp only [Option.some_bind]
  rw [wr_eq _ _ _ (by simp; omega)]
  simp only [Option.some_bind]
  rw [wr_eq _ _ _ (by simp; omega)]
  simp only [Option.some_bind]
  rw [memcpy_eq _ _ _ _ _ (by simp; omega) (by omega), keycode_lo, byte_of_shift,
    byte_of_shift, byte_of_shift]

/-! ## Identify and definition size (`case vial_get_keyboard_id`, `case vial_get_size`) -/

/-- Claim C11: for a 32-cell request with opcode 0, whatever its other cells
hold, with a 32-bit protocol version and an 8-byte keyboard UID, the response
bytes 0..3 decode little-endian to the protocol version, the bytes 4..11 are
the UID, the bytes 12..31 equal their inbound values, and the store is
unchanged. -/
theorem identify_response {σ : Type} (K : KeymapStore σ) (cfg : Config) (st : σ)
    (msg : List Nat) (hlen : msg.length = 32) (hop : byteAt msg 1 = 0)
    (hver : cfg.VIAL_PROTOCOL_VERSION < 2 ^ 32) (huid : cfg.VIAL_KEYBOARD_UID.length = 8) :
    ∃ out, vial_handle_cmd K cfg st msg 32 = some (st, out) ∧ out.length = 32 ∧
      byteAt out 0 + 256 * byteAt out 1 + 65536 * byteAt out 2 + 16777216 * byteAt out 3
        = cfg.VIAL_PROTOCOL_VERSION ∧
      (∀ j, j < 8 → byteAt out (4 + j) = byteAt cfg.VIAL_KEYBOARD_UID j) ∧
      (∀ j, 12 ≤ j → j < 32 → byteAt out j = byteAt msg j) := by
  have heq := handle_get_keyboard_id_eq cfg msg hlen (by omega)
  have hdisp := vial_handle_cmd_eq K cfg st msg hlen
  rw [hop] at hdisp
  simp only [heq, Option.map_some'] at hdisp
  have hd : 4 + 8 ≤ ((((msg.set 0 (cfg.VIAL_PROTOCOL_VERSION % 256)).set
        1 (cfg.VIAL_PROTOCOL_VERSION / 2 ^ 8 % 256)).set
        2 (cfg.VIAL_PROTOCOL_VERSION / 2 ^ 16 % 256)).set
        3 (cfg.VIAL_PROTOCOL_VERSION / 2 ^ 24 % 256)).length := by
    simp only [List.length_set]; omega
  have hs : 0 + 8 ≤ cfg.VIAL_KEYBOARD_UID.length := by omega
  have hb := byteAt_splice _ 4 _ 0 8 hd hs
  have hl := length_splice _ 4 _ 0 8 hd hs
  refine ⟨_, hdisp, ?_, ?_, ?_, ?_⟩
  · rw [hl]; simp only [List.length_set]; exact hlen
  · rw [hb 0, hb 1, hb 2, hb 3, if_neg (by omega), if_neg (by omega), if_neg (by omega),
      if_neg (by omega)]
    simp only [byteAt_set, List.length_set, hlen]
    simp only [Nat.lt_irrefl, Nat.reduceLT, Nat.reduceEqDiff, OfNat.ofNat_ne_zero,
      OfNat.zero_ne_ofNat, OfNat.ofNat_ne_one, OfNat.one_ne_ofNat, one_ne_zero, zero_ne_one,
      and_true, and_self, true_and, false_and, if_true, if_false]
    omega
  · intro j hj
    rw [hb (4 + j), if_pos (by omega)]
    congr 1
    omega
  · intro j h12 h32
    rw [hb j, if_neg (by omega)]
    simp only [byteAt_set]
    rw [if_neg (by omega), if_neg (by omega), if_neg (by omega), if_neg (by omega)]

/-- The identify response of the example configuration (version 6). -/
theorem identify_response_witness :
    (examplePacket 0 0 0).length = 32 ∧ byteAt (examplePacket 0 0 0) 1 = 0 ∧
    exampleConfig.VIAL_PROTOCOL_VERSION < 2 ^ 32 ∧ exampleConfig.VIAL_KEYBOARD_UID.length = 8 ∧
    ∃ out, vial_handle_cmd exampleStore exampleConfig [] (examplePacket 0 0 0) 32
        = some ([], out) ∧ out.length = 32 ∧
      byteAt out 0 + 256 * byteAt out 1 + 65536 * byteAt out 2 + 16777216 * byteAt out 3
        = exampleConfig.VIAL_PROTOCOL_VERSION ∧
      (∀ j, j < 8 → byteAt out (4 + j) = byteAt exampleConfig.VIAL_KEYBOARD_UID j) ∧
      (∀ j, 12 ≤ j → j < 32 → byteAt out j = byteAt (examplePacket 0 0 0) j) :=
  ⟨by decide, by decide, by decide, by decide,
    identify_response exampleStore exampleConfig [] (examplePacket 0 0 0)
      (by decide) (by decide) (by decide) (by decide)⟩

/-- Claim C12: for a blob of length `L < 2^32` and a 32-cell request with
opcode 1, whatever its other cells hold, the response bytes 0..3 decode
little-endian to exactly `L`, the bytes 4..31 equal their inbound values, and
the store is unchanged. -/
theorem get_size_response {σ : Type} (K : KeymapStore σ) (cfg : Config) (st : σ)
    (msg : List Nat) (hlen : msg.length = 32) (hop : byteAt msg 1 = 1)
    (hL : cfg.keyboard_definition.length < 2 ^ 32) :
    ∃ out, vial_handle_cmd K cfg st msg 32 = some (st, out) ∧ out.length = 32 ∧
      byteAt out 0 + 256 * byteAt out 1 + 65536 * byteAt out 2 + 16777216 * byteAt out 3
        = cfg.keyboard_definition.length ∧
      (∀ j, 4 ≤ j → j < 32 → byteAt out j = byteAt msg j) := by
  have heq := handle_get_size_eq cfg msg hlen
  have hdisp := vial_handle_cmd_eq K cfg st msg hlen
  rw [hop] at hdisp
  simp only [heq, Option.map_some'] at hdisp
  refine ⟨_, hdisp, ?_, ?_, ?_⟩
  · simp only [List.length_set]; exact hlen
  · simp only [byteAt_set, List.length_set, hlen]
    simp only [Nat.lt_irrefl, Nat.reduceLT, Nat.reduceEqDiff, OfNat.ofNat_ne_zero,
      OfNat.zero_ne_ofNat, OfNat.ofNat_ne_one, OfNat.one_ne_ofNat, one_ne_zero, zero_ne_one,
      and_true, and_self, true_and, false_and, if_true, if_false]
    omega
  · intro j h4 h32
    simp only [byteAt_set]
    rw [if_neg (by omega), if_neg (by omega), if_neg (by omega), if_neg (by omega)]

/-- The size response for the 40-byte example blob. -/
theorem get_size_response_witness :
    (examplePacket 1 0 0).length = 32 ∧ byteAt (examplePacket 1 0 0) 1 = 1 ∧
    exampleConfig.keyboard_definition.length < 2 ^ 32 ∧
    ∃ out, vial_handle_cmd exampleStore exampleConfig [] (examplePacket 1 0 0) 32
        = some ([], out) ∧ out.length = 32 ∧
      byteAt out 0 + 256 * byteAt out 1 + 65536 * byteAt out 2 + 16777216 * byteAt out 3
        = exampleConfig.keyboard_definition.length ∧
      (∀ j, 4 ≤ j → j < 32 → byteAt out j = byteAt (examplePacket 1 0 0) j) :=
  ⟨by decide, by decide, by decide,
    get_size_response exampleStore exampleConfig [] (examplePacket 1 0 0)
      (by decide) (by decide) (by decide)⟩

/-! ## Packets that are ignored -/

/-- Claim C13: for a 32-cell buffer whose byte 1 is not one of the opcodes
0..5, the handler returns the buffer identical to its input and the store
unchanged. -/
theorem unknown_opcode_ignored {σ : Type} (K : KeymapStore σ) (cfg : Config) (st : σ)
    (msg : List Nat) (hlen : msg.length = 32) (hop : 5 < byteAt msg 1) :
    vial_handle_cmd K cfg st msg 32 = some (st, msg) := by
  have hdisp := vial_handle_cmd_eq K cfg st msg hlen
  obtain ⟨n, hn⟩ : ∃ n, byteAt msg 1 = n + 6 := ⟨byteAt msg 1 - 6, by omega⟩
  rw [hn] at hdisp
  exact hdisp

/-- Opcode 9 on the example store. -/
theorem unknown_opcode_ignored_witness :
    (examplePacket 9 0 0).length = 32 ∧ 5 < byteAt (examplePacket 9 0 0) 1 ∧
    vial_handle_cmd exampleStore exampleConfig exampleEncoders (examplePacket 9 0 0) 32
      = some (exampleEncoders, examplePacket 9 0 0) :=
  ⟨by decide, by decide,
    unknown_opcode_ignored exampleStore exampleConfig exampleEncoders (examplePacket 9 0 0)
      (by decide) (by decide)⟩

/-- Claim C14: for every buffer content and every length argument other than
32 (`RAW_EPSIZE`), the handler returns the buffer and the store unchanged,
whatever the opcode byte is. -/
theorem length_guard {σ : Type} (K : KeymapStore σ) (cfg : Config) (st : σ)
    (msg : List Nat) (length : Nat) (hlength : length ≠ 32) :
    vial_handle_cmd K cfg st msg length = some (st, msg) := by
  unfold vial_handle_cmd
  rw [if_pos (by simpa [RAW_EPSIZE] using hlength)]

/-- A set-encoder request announced with length 31 is dropped: nothing is
written to the example store. -/
theorem length_guard_witness :
    (31 : Nat) ≠ 32 ∧
    vial_handle_cmd exampleStore exampleConfig exampleEncoders exampleSetEncoder 31
      = some (exampleEncoders, exampleSetEncoder) :=
  ⟨by decide,
    length_guard exampleStore exampleConfig exampleEncoders exampleSetEncoder 31 (by decide)⟩

/-! ## Totality of the handler -/

/-- The store written by `case vial_set_encoder`. -/
theorem handle_set_encoder_eq {σ : Type} (K : KeymapStore σ) (st : σ) (msg : List Nat)
    (hlen : msg.length = 32) :
    handle_set_encoder K st msg =
      some (dynamic_keymap_set_encoder K st (byteAt msg 2) (byteAt msg 3) (byteAt msg 4)
        ((byteAt msg 5 <<< 8) ||| byteAt msg 6)) := by
  have h2 := rd_eq msg 2 (by omega)
  have h3 := rd_eq msg 3 (by omega)
  have h4 := rd_eq msg 4 (by omega)
  have h5 := rd_eq msg 5 (by omega)
  have h6 := rd_eq msg 6 (by omega)
  simp only [handle_set_encoder, h2, h3, h4, h5, h6]
  rfl

/-- The copy of `case vial_get_def` stays inside the buffer and inside the
blob for every page index: the guard and the clamp make `end - start` at most
32 and `end` at most the blob length. -/
theorem handle_get_def_total (cfg : Config) (msg : List Nat) (hlen : msg.length = 32) :
    ∃ out, handle_get_def cfg msg = some out ∧ out.length = 32 := by
  rw [handle_get_def_eq cfg msg hlen]
  have hs : def_start (def_page (byteAt msg 2) (byteAt msg 3)) < 2 ^ 32 := by
    unfold def_start
    exact Nat.mod_lt _ (by decide)
  generalize def_start (def_page (byteAt msg 2) (byteAt msg 3)) = start at hs ⊢
  generalize hL : cfg.keyboard_definition.length = L
  have he : def_end start = (start + 32) % 2 ^ 32 := rfl
  generalize def_end start = e at he ⊢
  by_cases hg : e < start ∨ start ≥ L
  · rw [if_pos hg]
    exact ⟨msg, rfl, hlen⟩
  · rw [if_neg hg]
    have hn : ((if e > L then L % 2 ^ 32 else e) + 2 ^ 32 - start) % 2 ^ 32 ≤ 32 ∧
        start + ((if e > L then L % 2 ^ 32 else e) + 2 ^ 32 - start) % 2 ^ 32 ≤ L := by
      split <;> omega
    generalize ((if e > L then L % 2 ^ 32 else e) + 2 ^ 32 - start) % 2 ^ 32 = n at hn ⊢
    have hd : 0 + n ≤ msg.length := by omega
    have hsrc : start + n ≤ cfg.keyboard_definition.length := by omega
    rw [memcpy_eq _ _ _ _ _ hd hsrc]
    exact ⟨_, rfl, by rw [length_splice _ _ _ _ _ hd hsrc, hlen]⟩

/-- On a 32-cell buffer the handler returns for every opcode: no access leaves
the buffer, the blob or the UID array; the buffer keeps its 32 cells, and the
store is the one before the call unless the opcode is 4. -/
theorem vial_handle_cmd_total {σ : Type} (K : KeymapStore σ) (cfg : Config) (st : σ)
    (msg : List Nat) (hlen : msg.length = 32) (huid : 8 ≤ cfg.VIAL_KEYBOARD_UID.length) :
    ∃ st1 out, vial_handle_cmd K cfg st msg 32 = some (st1, out) ∧ out.length = 32 ∧
      (byteAt msg 1 ≠ 4 → st1 = st) := by
  rw [vial_handle_cmd_eq K cfg st msg hlen]
  generalize byteAt msg 1 = op
  match op with
  | 0 =>
    have h := handle_get_keyboard_id_eq cfg msg hlen huid
    refine ⟨st, _, by rw [h]; rfl, ?_, fun _ => rfl⟩
    rw [length_splice _ 4 _ 0 8 (by simp only [List.length_set]; omega) (by omega)]
    simp only [List.length_set]
    exact hlen
  | 1 =>
    have h := handle_get_size_eq cfg msg hlen
    refine ⟨st, _, by rw [h]; rfl, ?_, fun _ => rfl⟩
    simp only [List.length_set]
    exact hlen
  | 2 =>
    obtain ⟨out, h, hl⟩ := handle_get_def_total cfg msg hlen
    exact ⟨st, out, by rw [h]; rfl, hl, fun _ => rfl⟩
  | 3 =>
    obtain ⟨out, h, hl, -⟩ := handle_get_encoder_spec K st msg hlen
    cases hen : cfg.VIAL_ENCODERS_ENABLE
    · exact ⟨st, msg, by simp, hlen, fun _ => rfl⟩
    · exact ⟨st, out, by simp [h], hl, fun _ => rfl⟩
  | 4 =>
    have h := handle_set_encoder_eq K st msg hlen
    cases hen : cfg.VIAL_ENCODERS_ENABLE
    · exact ⟨st, msg, by simp, hlen, fun _ => rfl⟩
    · exact ⟨dynamic_keymap_set_encoder K st (byteAt msg 2) (byteAt msg 3) (byteAt msg 4)
        ((byteAt msg 5 <<< 8) ||| byteAt msg 6), msg, by simp [h], hlen,
        fun hne => absurd rfl hne⟩
  | 5 =>
    obtain ⟨out, h, hl, -⟩ := handle_get_keymap_fast_spec K st msg hlen
    exact ⟨st, out, by rw [h]; rfl, hl, fun _ => rfl⟩
  | _ + 6 => exact ⟨st, msg, rfl, hlen, fun _ => rfl⟩

/-- Outside the opcodes 3 and 4 the handler does not depend on whether
`VIAL_ENCODERS_ENABLE` is defined. -/
theorem vial_handle_cmd_flag_irrelevant {σ : Type} (K : KeymapStore σ) (cfg : Config) (st : σ)
    (msg : List Nat) (hlen : msg.length = 32) (h3 : byteAt msg 1 ≠ 3) (h4 : byteAt msg 1 ≠ 4)
    (a b : Bool) :
    vial_handle_cmd K (with_encoders cfg a) st msg 32 =
      vial_handle_cmd K (with_encoders cfg b) st msg 32 := by
  rw [vial_handle_cmd_eq K _ st msg hlen, vial_handle_cmd_eq K _ st msg hlen]
  generalize byteAt msg 1 = op at h3 h4
  match op with
  | 0 => rfl
  | 1 => rfl
  | 2 => rfl
  | 3 => exact absurd rfl h3
  | 4 => exact absurd rfl h4
  | 5 => rfl
  | _ + 6 => rfl

/-- The encoder resolver only reads the store. -/
theorem vial_encoder_update_fst {σ : Type} (K : KeymapStore σ) (cfg : Config) (st : σ)
    (layer_state default_layer_state index : Nat) (clockwise : Bool) :
    (vial_encoder_update K cfg st layer_state default_layer_state index clockwise).1 = st := by
  unfold vial_encoder_update
  dsimp only
  cases encoder_scan K cfg st (layer_state ||| default_layer_state) index
    (if clockwise = true then 1 else 0) cfg.MAX_LAYER <;> rfl

/-! ## Frame and safety properties of the whole handler -/

/-- Claim C15: for a 32-cell request whose opcode is not 4 (set-encoder), the
handler returns with the store it was called with, and so does every call of
`vial_encoder_update`; set-encoder is the only operation that writes the
store. -/
theorem store_frame {σ : Type} (K : KeymapStore σ) (cfg : Config) (st : σ)
    (msg : List Nat) (layer_state default_layer_state index : Nat) (clockwise : Bool)
    (hlen : msg.length = 32) (huid : 8 ≤ cfg.VIAL_KEYBOARD_UID.length)
    (hop : byteAt msg 1 ≠ 4) :
    (∃ out, vial_handle_cmd K cfg st msg 32 = some (st, out)) ∧
      (vial_encoder_update K cfg st layer_state default_layer_state index clockwise).1 = st := by
  constructor
  · obtain ⟨st1, out, h, -, hst⟩ := vial_handle_cmd_total K cfg st msg hlen huid
    rw [hst hop] at h
    exact ⟨out, h⟩
  · exact vial_encoder_update_fst K cfg st layer_state default_layer_state index clockwise

/-- A get-keymap-fast request and an encoder turn leave the example store
state as it was. -/
theorem store_frame_witness :
    exampleKeymapRequest.length = 32 ∧ 8 ≤ exampleConfig.VIAL_KEYBOARD_UID.length ∧
    byteAt exampleKeymapRequest 1 ≠ 4 ∧
    (∃ out, vial_handle_cmd exampleStore exampleConfig exampleEncoders exampleKeymapRequest 32
      = some (exampleEncoders, out)) ∧
    (vial_encoder_update exampleStore exampleConfig exampleEncoders 4 1 0 true).1
      = exampleEncoders :=
  ⟨by decide, by decide, by decide,
    store_frame exampleStore exampleConfig exampleEncoders exampleKeymapRequest 4 1 0 true
      (by decide) (by decide) (by decide)⟩

/-- Claim C16: in the build without `VIAL_ENCODERS_ENABLE`, a 32-cell request
with opcode 3 or 4 leaves the buffer and the store unchanged, and a request
with any other opcode gets the same response (and store) as in the build with
`VIAL_ENCODERS_ENABLE` on the same input. -/
theorem encoders_disabled {σ : Type} (K : KeymapStore σ) (cfg : Config) (st : σ)
    (msg : List Nat) (hlen : msg.length = 32) (huid : 8 ≤ cfg.VIAL_KEYBOARD_UID.length) :
    (byteAt msg 1 = 3 ∨ byteAt msg 1 = 4 →
      vial_handle_cmd K (with_encoders cfg false) st msg 32 = some (st, msg)) ∧
    (byteAt msg 1 ≠ 3 → byteAt msg 1 ≠ 4 →
      ∃ out, vial_handle_cmd K (with_encoders cfg false) st msg 32 = some (st, out) ∧
        vial_handle_cmd K (with_encoders cfg true) st msg 32 = some (st, out)) := by
  constructor
  · intro hop
    rw [vial_handle_cmd_eq K _ st msg hlen]
    rcases hop with hop | hop <;> rw [hop] <;> rfl
  · intro h3 h4
    obtain ⟨st1, out, h, -, hst⟩ :=
      vial_handle_cmd_total K (with_encoders cfg false) st msg hlen huid
    rw [hst h4] at h
    refine ⟨out, h, ?_⟩
    rw [← vial_handle_cmd_flag_irrelevant K cfg st msg hlen h3 h4 false true]
    exact h

/-- Without encoders the example set-encoder request is ignored, while the
example keymap request is answered as in the build with encoders. -/
theorem encoders_disabled_witness :
    exampleSetEncoder.length = 32 ∧ 8 ≤ exampleConfig.VIAL_KEYBOARD_UID.length ∧
    ((byteAt exampleSetEncoder 1 = 3 ∨ byteAt exampleSetEncoder 1 = 4 →
      vial_handle_cmd exampleStore (with_encoders exampleConfig false) exampleEncoders
        exampleSetEncoder 32 = some (exampleEncoders, exampleSetEncoder)) ∧
    (byteAt exampleSetEncoder 1 ≠ 3 → byteAt exampleSetEncoder 1 ≠ 4 →
      ∃ out, vial_handle_cmd exampleStore (with_encoders exampleConfig false) exampleEncoders
          exampleSetEncoder 32 = some (exampleEncoders, out) ∧
        vial_handle_cmd exampleStore (with_encoders exampleConfig true) exampleEncoders
          exampleSetEncoder 32 = some (exampleEncoders, out))) :=
  ⟨by decide, by decide,
    encoders_disabled exampleStore exampleConfig exampleEncoders exampleSetEncoder
      (by decide) (by decide)⟩

/-- Claim C17: for a 32-cell buffer and every opcode byte the handler returns
a result, which in the bounds-checked embedding means that every offset of the
buffer it reads or writes is below 32 and every blob offset read by
get-definition-page is below the blob length; the returned buffer has exactly
32 cells. -/
theorem bounds_safety {σ : Type} (K : KeymapStore σ) (cfg : Config) (st : σ)
    (msg : List Nat) (hlen : msg.length = 32) (huid : 8 ≤ cfg.VIAL_KEYBOARD_UID.length) :
    ∃ st1 out, vial_handle_cmd K cfg st msg 32 = some (st1, out) ∧ out.length = 32 := by
  obtain ⟨st1, out, h, hl, -⟩ := vial_handle_cmd_total K cfg st msg hlen huid
  exact ⟨st1, out, h, hl⟩

/-- The last page of the example blob is copied without leaving the blob. -/
theorem bounds_safety_witness :
    (examplePacket 2 1 0).length = 32 ∧ 8 ≤ exampleConfig.VIAL_KEYBOARD_UID.length ∧
    ∃ st1 out, vial_handle_cmd exampleStore exampleConfig exampleEncoders
      (examplePacket 2 1 0) 32 = some (st1, out) ∧ out.length = 32 :=
  ⟨by decide, by decide,
    bounds_safety exampleStore exampleConfig exampleEncoders (examplePacket 2 1 0)
      (by decide) (by decide)⟩

/-! ## Paging without wraparound -/

/-- The pager on a page index for which no 32-bit value wraps: the page is
rejected exactly when `32 * p` is not below the blob length, and otherwise
`min 32 (L - 32 * p)` blob bytes are copied to the start of the buffer. -/
theorem handle_get_def_nowrap (cfg : Config) (msg : List Nat) (hlen : msg.length = 32)
    (hp : 32 * (byteAt msg 2 + 256 * byteAt msg 3) + 32 < 2 ^ 32) :
    handle_get_def cfg msg =
      if cfg.keyboard_definition.length ≤ 32 * (byteAt msg 2 + 256 * byteAt msg 3) then some msg
      else some (msg.take 0 ++
        (cfg.keyboard_definition.drop (32 * (byteAt msg 2 + 256 * byteAt msg 3))).take
          (min 32 (cfg.keyboard_definition.length - 32 * (byteAt msg 2 + 256 * byteAt msg 3)))
        ++ msg.drop (0 +
          min 32 (cfg.keyboard_definition.length - 32 * (byteAt msg 2 + 256 * byteAt msg 3)))) := by
  rw [handle_get_def_eq cfg msg hlen, def_start_exact _ _ hp, def_end_exact _ hp]
  generalize byteAt msg 2 + 256 * byteAt msg 3 = p at hp ⊢
  generalize hL : cfg.keyboard_definition.length = L
  by_cases hrej : L ≤ 32 * p
  · rw [if_pos (Or.inr hrej), if_pos hrej]
  · rw [if_neg (by omega), if_neg hrej]
    have hn : ((if 32 * p + 32 > L then L % 2 ^ 32 else 32 * p + 32) + 2 ^ 32 - 32 * p) % 2 ^ 32
        = min 32 (L - 32 * p) := by
      split <;> omega
    rw [hn, memcpy_eq _ _ _ _ _ (by omega) (by omega)]

/-- The cells of the request for page `p`. -/
theorem page_request_bytes (magic : Nat) (filler : List Nat) (p : Nat)
    (hfill : filler.length = 28) :
    (page_request magic filler p).length = 32 ∧ byteAt (page_request magic filler p) 1 = 2 ∧
      byteAt (page_request magic filler p) 2 + 256 * byteAt (page_request magic filler p) 3 = p := by
  refine ⟨by simp [page_request, hfill], by simp [page_request, byteAt], ?_⟩
  have h2 : byteAt (page_request magic filler p) 2 = p % 256 := by simp [page_request, byteAt]
  have h3 : byteAt (page_request magic filler p) 3 = p / 256 := by simp [page_request, byteAt]
  rw [h2, h3]
  omega

/-- The response to the request for page `p` of at most 65535. -/
theorem vial_handle_cmd_page_request {σ : Type} (K : KeymapStore σ) (cfg : Config) (st : σ)
    (magic : Nat) (filler : List Nat) (p : Nat) (hfill : filler.length = 28) (hp : p ≤ 65535) :
    vial_handle_cmd K cfg st (page_request magic filler p) 32 =
      if cfg.keyboard_definition.length ≤ 32 * p then some (st, page_request magic filler p)
      else some (st, (page_request magic filler p).take 0 ++
        (cfg.keyboard_definition.drop (32 * p)).take
          (min 32 (cfg.keyboard_definition.length - 32 * p))
        ++ (page_request magic filler p).drop
          (0 + min 32 (cfg.keyboard_definition.length - 32 * p))) := by
  obtain ⟨hlen, hop, hpage⟩ := page_request_bytes magic filler p hfill
  rw [vial_handle_cmd_get_def K cfg st _ hlen hop,
    handle_get_def_nowrap cfg _ hlen (by rw [hpage]; omega), hpage]
  split <;> rfl

/-- Taking at most the rest of a list after dropping. -/
theorem take_min_drop (l : List Nat) (s : Nat) :
    (l.drop s).take (min 32 (l.length - s)) = (l.drop s).take 32 := by
  by_cases h : 32 ≤ l.length - s
  · rw [Nat.min_eq_left h]
  · rw [Nat.min_eq_right (by omega), List.take_of_length_le (by simp),
      List.take_of_length_le (by simp; omega)]

/-- Cutting a list into consecutive slices of 32 and concatenating them gives
the list back. -/
theorem flatMap_slices (n : Nat) :
    ∀ l : List Nat, l.length ≤ 32 * n →
      (List.range n).flatMap (fun p => (l.drop (32 * p)).take 32) = l := by
  induction n with
  | zero =>
    intro l hl
    have : l = [] := List.length_eq_zero.mp (by omega)
    simp [this]
  | succ n ih =>
    intro l hl
    rw [List.range_succ_eq_map, List.flatMap_cons, List.flatMap_map]
    have hdrop : ∀ p, (l.drop (32 * Nat.succ p)).take 32 = ((l.drop 32).drop (32 * p)).take 32 := by
      intro p
      rw [List.drop_drop]
      congr 2
      omega
    simp only [hdrop, Nat.mul_zero, List.drop_zero]
    rw [ih (l.drop 32) (by simp; omega)]
    exact List.take_append_drop 32 l

/-- Mapping two functions that agree on the members of a list. -/
theorem flatMap_congr_mem (l : List Nat) (f g : Nat → List Nat) (h : ∀ a ∈ l, f a = g a) :
    l.flatMap f = l.flatMap g := by
  rw [List.flatMap_def, List.flatMap_def, List.map_congr_left h]

/-! ## Reassembly of the blob and the overflow guard -/

/-- Claim C18: for a blob of length `L ≤ 2^21`, the concatenation over the
pages `p = 0, ..., ceil(L / 32) - 1` of the first `min 32 (L - 32 * p)`
response bytes of the get-definition-page request for page `p` is the blob;
every blob byte `k < L` is returned at response offset `k % 32` of page
`k / 32`; and a page `p` with `32 * p ≥ L` is not served (the request comes
back unchanged). -/
theorem blob_reassembly {σ : Type} (K : KeymapStore σ) (cfg : Config) (st : σ)
    (magic : Nat) (filler : List Nat) (hfill : filler.length = 28)
    (hL : cfg.keyboard_definition.length ≤ 2 ^ 21) :
    reassemble K cfg st magic filler = cfg.keyboard_definition ∧
    (∀ k, k < cfg.keyboard_definition.length →
      ∃ out, vial_handle_cmd K cfg st (page_request magic filler (k / 32)) 32 = some (st, out) ∧
        out.length = 32 ∧ byteAt out (k % 32) = byteAt cfg.keyboard_definition k) ∧
    (∀ p, p ≤ 65535 → cfg.keyboard_definition.length ≤ 32 * p →
      vial_handle_cmd K cfg st (page_request magic filler p) 32
        = some (st, page_request magic filler p)) := by
  refine ⟨?_, ?_, ?_⟩
  · unfold reassemble
    rw [flatMap_congr_mem _ _ (fun p => (cfg.keyboard_definition.drop (32 * p)).take 32)]
    · exact flatMap_slices _ _ (by omega)
    · intro p hp
      have hp2 : p < (cfg.keyboard_definition.length + 31) / 32 := List.mem_range.mp hp
      have hlt : 32 * p < cfg.keyboard_definition.length := by omega
      rw [vial_handle_cmd_page_request K cfg st magic filler p hfill (by omega),
        if_neg (by omega)]
      simp only [List.take_zero, List.nil_append]
      rw [List.take_left' (by simp)]
      exact take_min_drop _ _
  · intro k hk
    have hlen := (page_request_bytes magic filler (k / 32) hfill).1
    have hd : 0 + min 32 (cfg.keyboard_definition.length - 32 * (k / 32))
        ≤ (page_request magic filler (k / 32)).length := by omega
    have hs : 32 * (k / 32) + min 32 (cfg.keyboard_definition.length - 32 * (k / 32))
        ≤ cfg.keyboard_definition.length := by omega
    refine ⟨(page_request magic filler (k / 32)).take 0 ++
      (cfg.keyboard_definition.drop (32 * (k / 32))).take
        (min 32 (cfg.keyboard_definition.length - 32 * (k / 32)))
      ++ (page_request magic filler (k / 32)).drop
        (0 + min 32 (cfg.keyboard_definition.length - 32 * (k / 32))), ?_, ?_, ?_⟩
    · rw [vial_handle_cmd_page_request K cfg st magic filler (k / 32) hfill (by omega),
        if_neg (by omega)]
    · rw [length_splice _ _ _ _ _ hd hs, hlen]
    · rw [byteAt_splice _ _ _ _ _ hd hs, if_pos (by omega)]
      congr 1
      omega
  · intro p hp hrej
    rw [vial_handle_cmd_page_request K cfg st magic filler p hfill hp, if_pos hrej]

/-- The 40-byte example blob is reassembled from its two pages. -/
theorem blob_reassembly_witness :
    (List.replicate 28 0).length = 28 ∧ exampleConfig.keyboard_definition.length ≤ 2 ^ 21 ∧
    (reassemble exampleStore exampleConfig [] 0xFE (List.replicate 28 0)
        = exampleConfig.keyboard_definition ∧
      (∀ k, k < exampleConfig.keyboard_definition.length →
        ∃ out, vial_handle_cmd exampleStore exampleConfig []
            (page_request 0xFE (List.replicate 28 0) (k / 32)) 32 = some ([], out) ∧
          out.length = 32 ∧ byteAt out (k % 32) = byteAt exampleConfig.keyboard_definition k) ∧
      (∀ p, p ≤ 65535 → exampleConfig.keyboard_definition.length ≤ 32 * p →
        vial_handle_cmd exampleStore exampleConfig [] (page_request 0xFE (List.replicate 28 0) p) 32
          = some ([], page_request 0xFE (List.replicate 28 0) p))) :=
  ⟨by decide, by decide,
    blob_reassembly exampleStore exampleConfig [] 0xFE (List.replicate 28 0)
      (by decide) (by decide)⟩

/-- Claim C19: for a 32-byte request with opcode 2 the page index
`p = byte2 + 256 * byte3` is at most 65535, the 32-bit `start` is exactly
`32 * p` and the 32-bit `end` is `start + 32`, so `end < start` never holds,
the guard is true exactly when `32 * p ≥ L`, and the handler rejects the page
in that case and serves `min 32 (L - 32 * p)` blob bytes otherwise. -/
theorem overflow_guard_dead {σ : Type} (K : KeymapStore σ) (cfg : Config) (st : σ)
    (msg : List Nat) (hpk : IsPacket msg) (hop : byteAt msg 1 = 2) :
    byteAt msg 2 + 256 * byteAt msg 3 ≤ 65535 ∧
    def_page (byteAt msg 2) (byteAt msg 3) = byteAt msg 2 + 256 * byteAt msg 3 ∧
    def_start (def_page (byteAt msg 2) (byteAt msg 3)) = 32 * (byteAt msg 2 + 256 * byteAt msg 3) ∧
    def_end (def_start (def_page (byteAt msg 2) (byteAt msg 3)))
      = def_start (def_page (byteAt msg 2) (byteAt msg 3)) + 32 ∧
    ¬ (def_end (def_start (def_page (byteAt msg 2) (byteAt msg 3)))
      < def_start (def_page (byteAt msg 2) (byteAt msg 3))) ∧
    ((def_end (def_start (def_page (byteAt msg 2) (byteAt msg 3)))
        < def_start (def_page (byteAt msg 2) (byteAt msg 3)) ∨
      def_start (def_page (byteAt msg 2) (byteAt msg 3)) ≥ cfg.keyboard_definition.length)
      ↔ cfg.keyboard_definition.length ≤ 32 * (byteAt msg 2 + 256 * byteAt msg 3)) ∧
    vial_handle_cmd K cfg st msg 32 =
      if cfg.keyboard_definition.length ≤ 32 * (byteAt msg 2 + 256 * byteAt msg 3) then
        some (st, msg)
      else some (st, msg.take 0 ++
        (cfg.keyboard_definition.drop (32 * (byteAt msg 2 + 256 * byteAt msg 3))).take
          (min 32 (cfg.keyboard_definition.length - 32 * (byteAt msg 2 + 256 * byteAt msg 3)))
        ++ msg.drop (0 +
          min 32 (cfg.keyboard_definition.length - 32 * (byteAt msg 2 + 256 * byteAt msg 3)))) := by
  have hp := page_le_of_isPacket msg hpk
  have hstart := def_start_exact (byteAt msg 2) (byteAt msg 3) (by omega)
  have hend := def_end_exact (32 * (byteAt msg 2 + 256 * byteAt msg 3)) (by omega)
  have hpage : def_page (byteAt msg 2) (byteAt msg 3) = byteAt msg 2 + 256 * byteAt msg 3 := by
    simp only [def_page, shl8]
    omega
  refine ⟨hp, hpage, hstart, by rw [hstart, hend], by rw [hstart, hend]; omega,
    by rw [hstart, hend]; omega, ?_⟩
  rw [vial_handle_cmd_get_def K cfg st msg hpk.1 hop,
    handle_get_def_nowrap cfg msg hpk.1 (by omega)]
  split <;> rfl

/-- The largest page index, 65535, on the example blob: `start` is 2097120,
`end` is 2097152, nothing wraps and the page is rejected because it starts
beyond the blob. -/
theorem overflow_guard_dead_witness :
    IsPacket (examplePacket 2 255 255) ∧ byteAt (examplePacket 2 255 255) 1 = 2 ∧
    (byteAt (examplePacket 2 255 255) 2 + 256 * byteAt (examplePacket 2 255 255) 3 ≤ 65535 ∧
    def_page (byteAt (examplePacket 2 255 255) 2) (byteAt (examplePacket 2 255 255) 3)
      = byteAt (examplePacket 2 255 255) 2 + 256 * byteAt (examplePacket 2 255 255) 3 ∧
    def_start (def_page (byteAt (examplePacket 2 255 255) 2) (byteAt (examplePacket 2 255 255) 3))
      = 32 * (byteAt (examplePacket 2 255 255) 2 + 256 * byteAt (examplePacket 2 255 255) 3) ∧
    def_end (def_start (def_page (byteAt (examplePacket 2 255 255) 2)
        (byteAt (examplePacket 2 255 255) 3)))
      = def_start (def_page (byteAt (examplePacket 2 255 255) 2)
        (byteAt (examplePacket 2 255 255) 3)) + 32 ∧
    ¬ (def_end (def_start (def_page (byteAt (examplePacket 2 255 255) 2)
        (byteAt (examplePacket 2 255 255) 3)))
      < def_start (def_page (byteAt (examplePacket 2 255 255) 2)
        (byteAt (examplePacket 2 255 255) 3))) ∧
    ((def_end (def_start (def_page (byteAt (examplePacket 2 255 255) 2)
          (byteAt (examplePacket 2 255 255) 3)))
        < def_start (def_page (byteAt (examplePacket 2 255 255) 2)
          (byteAt (examplePacket 2 255 255) 3)) ∨
      def_start (def_page (byteAt (examplePacket 2 255 255) 2)
          (byteAt (examplePacket 2 255 255) 3)) ≥ exampleConfig.keyboard_definition.length)
      ↔ exampleConfig.keyboard_definition.length
        ≤ 32 * (byteAt (examplePacket 2 255 255) 2 + 256 * byteAt (examplePacket 2 255 255) 3)) ∧
    vial_handle_cmd exampleStore exampleConfig [] (examplePacket 2 255 255) 32 =
      if exampleConfig.keyboard_definition.length
          ≤ 32 * (byteAt (examplePacket 2 255 255) 2 + 256 * byteAt (examplePacket 2 255 255) 3) then
        some ([], examplePacket 2 255 255)
      else some ([], (examplePacket 2 255 255).take 0 ++
        (exampleConfig.keyboard_definition.drop
          (32 * (byteAt (examplePacket 2 255 255) 2 + 256 * byteAt (examplePacket 2 255 255) 3))).take
          (min 32 (exampleConfig.keyboard_definition.length
            - 32 * (byteAt (examplePacket 2 255 255) 2 + 256 * byteAt (examplePacket 2 255 255) 3)))
        ++ (examplePacket 2 255 255).drop (0 +
          min 32 (exampleConfig.keyboard_definition.length
            - 32 * (byteAt (examplePacket 2 255 255) 2
              + 256 * byteAt (examplePacket 2 255 255) 3))))) :=
  ⟨by decide, by decide,
    overflow_guard_dead exampleStore exampleConfig [] (examplePacket 2 255 255)
      (by decide) (by decide)⟩


/-! ## Byte 0 of the response -/

/-- Claim C20, as stated, fails: on the example store and configuration the
requests with opcodes 0, 1, 2, 3 and 5 all arrive with `0xFE` in byte 0 and
come back with 6 (version), 40 (blob length), 200 (first blob byte), 1 (high
byte of the encoder keycode `0x0102`) and `0x12` (high byte of the keycode of
slot 0) in byte 0, so five of the six opcodes, not a minority, write byte 0. -/
theorem byte0_overwritten_counterexample :
    byteAt (examplePacket 0 0 0) 0 = 0xFE ∧ byteAt (examplePacket 1 0 0) 0 = 0xFE ∧
    byteAt (examplePacket 2 0 0) 0 = 0xFE ∧ byteAt (examplePacket 3 0 0) 0 = 0xFE ∧
    byteAt exampleKeymapRequest 0 = 0xFE ∧ byteAt exampleKeymapRequest 1 = 5 ∧
    (vial_handle_cmd exampleStore exampleConfig exampleEncoders (examplePacket 0 0 0) 32).map
      (fun r => byteAt r.2 0) = some 6 ∧
    (vial_handle_cmd exampleStore exampleConfig exampleEncoders (examplePacket 1 0 0) 32).map
      (fun r => byteAt r.2 0) = some 40 ∧
    (vial_handle_cmd exampleStore exampleConfig exampleEncoders (examplePacket 2 0 0) 32).map
      (fun r => byteAt r.2 0) = some 200 ∧
    (vial_handle_cmd exampleStore exampleConfig exampleEncoders (examplePacket 3 0 0) 32).map
      (fun r => byteAt r.2 0) = some 1 ∧
    (vial_handle_cmd exampleStore exampleConfig exampleEncoders exampleKeymapRequest 32).map
      (fun r => byteAt r.2 0) = some 0x12 := by
  decide

/-- Claim C20, amended: the response byte 0 of a 32-byte request equals the
inbound byte 0 for opcode 4 (set-encoder) and for unknown opcodes, for opcode 2
when the page is rejected, for opcode 5 when slot 0 is `0xFF`, and for opcode 3
in the build without encoders; otherwise the payload starts at offset 0 and
byte 0 is the low byte of the protocol version (opcode 0), the low byte of the
blob length (opcode 1), the blob byte at `32 * page` (opcode 2), the high byte
of the direction-0 encoder keycode (opcode 3) or the high byte of the keycode
of slot 0 (opcode 5). -/
theorem byte0_of_response {σ : Type} (K : KeymapStore σ) (cfg : Config) (st : σ)
    (msg : List Nat) (hpk : IsPacket msg) (huid : 8 ≤ cfg.VIAL_KEYBOARD_UID.length) :
    ∃ st1 out, vial_handle_cmd K cfg st msg 32 = some (st1, out) ∧
      byteAt out 0 =
        match byteAt msg 1 with
        | 0 => cfg.VIAL_PROTOCOL_VERSION % 256
        | 1 => cfg.keyboard_definition.length % 256
        | 2 =>
          if cfg.keyboard_definition.length ≤ 32 * (byteAt msg 2 + 256 * byteAt msg 3) then
            byteAt msg 0
          else byteAt cfg.keyboard_definition (32 * (byteAt msg 2 + 256 * byteAt msg 3))
        | 3 =>
          if cfg.VIAL_ENCODERS_ENABLE then
            dynamic_keymap_get_encoder K st (byteAt msg 2) (byteAt msg 3) 0 / 256
          else byteAt msg 0
        | 4 => byteAt msg 0
        | 5 =>
          if byteAt msg 4 = 0xFF then byteAt msg 0
          else dynamic_keymap_get_keycode K st (byteAt msg 2) (byteAt msg 3) (byteAt msg 4) / 256
        | _ => byteAt msg 0 := by
  have hlen := hpk.1
  have hp := page_le_of_isPacket msg hpk
  rw [vial_handle_cmd_eq K cfg st msg hlen]
  generalize byteAt msg 1 = op
  match op with
  | 0 =>
    have h := handle_get_keyboard_id_eq cfg msg hlen huid
    refine ⟨st, _, by rw [h]; rfl, ?_⟩
    rw [byteAt_splice _ 4 _ 0 8 (by simp only [List.length_set]; omega) (by omega),
      if_neg (by omega)]
    simp [byteAt_set, hlen]
  | 1 =>
    have h := handle_get_size_eq cfg msg hlen
    refine ⟨st, _, by rw [h]; rfl, ?_⟩
    simp only [byteAt_set, List.length_set, hlen]
    simp only [Nat.lt_irrefl, Nat.reduceLT, Nat.reduceEqDiff, OfNat.ofNat_ne_zero,
      OfNat.zero_ne_ofNat, OfNat.ofNat_ne_one, OfNat.one_ne_ofNat, one_ne_zero, zero_ne_one,
      and_true, and_self, true_and, false_and, if_true, if_false]
    exact Nat.mod_mod_of_dvd _ (by norm_num)
  | 2 =>
    have h := handle_get_def_nowrap cfg msg hlen (by omega)
    by_cases hrej : cfg.keyboard_definition.length ≤ 32 * (byteAt msg 2 + 256 * byteAt msg 3)
    · rw [if_pos hrej] at h
      exact ⟨st, msg, by rw [h]; rfl, by simp only [if_pos hrej]⟩
    · rw [if_neg hrej] at h
      refine ⟨st, _, by rw [h]; rfl, ?_⟩
      simp only [if_neg hrej]
      rw [byteAt_splice _ _ _ _ _ (by omega) (by omega), if_pos (by omega)]
      rfl
  | 3 =>
    obtain ⟨out, h, -, h0, -⟩ := handle_get_encoder_spec K st msg hlen
    cases hen : cfg.VIAL_ENCODERS_ENABLE
    · exact ⟨st, msg, by simp, by simp⟩
    · exact ⟨st, out, by simp [h], by simp [h0]⟩
  | 4 =>
    have h := handle_set_encoder_eq K st msg hlen
    cases hen : cfg.VIAL_ENCODERS_ENABLE
    · exact ⟨st, msg, by simp, rfl⟩
    · exact ⟨dynamic_keymap_set_encoder K st (byteAt msg 2) (byteAt msg 3) (byteAt msg 4)
        ((byteAt msg 5 <<< 8) ||| byteAt msg 6), msg, by simp [h], rfl⟩
  | 5 =>
    obtain ⟨out, h, -, hbytes⟩ := handle_get_keymap_fast_spec K st msg hlen
    refine ⟨st, out, by rw [h]; rfl, ?_⟩
    have h0 := hbytes 0 (by omega)
    rw [h0]
    by_cases hff : byteAt msg 4 = 0xFF
    · simp [hff]
    · simp [hff, keycode_hi _ (dynamic_keymap_get_keycode_lt K st _ _ _)]
  | _ + 6 => exact ⟨st, msg, rfl, rfl⟩

/-- The example set-encoder request comes back with its byte 0. -/
theorem byte0_of_response_witness :
    IsPacket exampleSetEncoder ∧ 8 ≤ exampleConfig.VIAL_KEYBOARD_UID.length ∧
    ∃ st1 out, vial_handle_cmd exampleStore exampleConfig exampleEncoders exampleSetEncoder 32
        = some (st1, out) ∧
      byteAt out 0 =
        match byteAt exampleSetEncoder 1 with
        | 0 => exampleConfig.VIAL_PROTOCOL_VERSION % 256
        | 1 => exampleConfig.keyboard_definition.length % 256
        | 2 =>
          if exampleConfig.keyboard_definition.length
              ≤ 32 * (byteAt exampleSetEncoder 2 + 256 * byteAt exampleSetEncoder 3) then
            byteAt exampleSetEncoder 0
          else byteAt exampleConfig.keyboard_definition
            (32 * (byteAt exampleSetEncoder 2 + 256 * byteAt exampleSetEncoder 3))
        | 3 =>
          if exampleConfig.VIAL_ENCODERS_ENABLE then
            dynamic_keymap_get_encoder exampleStore exampleEncoders
              (byteAt exampleSetEncoder 2) (byteAt exampleSetEncoder 3) 0 / 256
          else byteAt exampleSetEncoder 0
        | 4 => byteAt exampleSetEncoder 0
        | 5 =>
          if byteAt exampleSetEncoder 4 = 0xFF then byteAt exampleSetEncoder 0
          else dynamic_keymap_get_keycode exampleStore exampleEncoders
            (byteAt exampleSetEncoder 2) (byteAt exampleSetEncoder 3)
            (byteAt exampleSetEncoder 4) / 256
        | _ => byteAt exampleSetEncoder 0 :=
  ⟨by decide, by decide,
    byte0_of_response exampleStore exampleConfig exampleEncoders exampleSetEncoder
      (by decide) (by decide)⟩

end Vial
